import Mathlib

/-!
Shallow embedding of `src/peakrdl/ipxact/exporter.py` (PeakRDL-ipxact).

The exporter walks a SystemRDL node tree and builds an IP-XACT XML document.
XML documents are modelled as a tree datatype; the mutable
`self._max_width` accumulator is threaded explicitly as an `Option Nat`;
`msg.warning` calls accumulate into a list of `Message`s and `msg.fatal`
aborts via `Except` (in the Python library a fatal message raises, so the
output file at the end of `export` is never written).
-/

namespace PeakRDLIpxact

/-- Enumeration of IP-XACT standards (class `Standard`, exporter.py:14). -/
inductive Standard where
  | IEEE_1685_2009
  | IEEE_1685_2014
deriving DecidableEq

/-- Numeric value of the `IntEnum` member. -/
def Standard.toNat : Standard → Nat
  | .IEEE_1685_2009 => 2009
  | .IEEE_1685_2014 => 2014

/-- Namespace prefix chosen in `__init__` (exporter.py:63-66). -/
def nsOf (std : Standard) : String :=
  if 2014 ≤ std.toNat then "ipxact:" else "spirit:"

/-- Modelled from the spec: the software-access modes of the source model
("access mode" of a field / "software-access property" of a memory).  The
`systemrdl` enum type `AccessType` is an external collaborator, not part of
this repository's `src/`. -/
inductive AccessType where
  | na | r | w | rw | w1 | rw1
deriving DecidableEq

/-- Modelled from the spec: `typemaps.access_from_sw`, the fixed mapping
table from software-access mode to the IP-XACT access vocabulary.  The
`typemaps` module of this repository is not under `src/`; no claim depends
on the individual table entries, only on the mapping being a fixed table. -/
def access_from_sw : AccessType → String
  | .na => "read-only"
  | .r => "read-only"
  | .w => "write-only"
  | .rw => "read-write"
  | .w1 => "writeOnce"
  | .rw1 => "read-writeOnce"

/-- Modelled from the spec: write side-effect classifiers of the source
model (`systemrdl` `OnWriteType`, external collaborator). -/
inductive OnWriteType where
  | woset | woclr | wot | wzs | wzc | wzt | wclr | wset
deriving DecidableEq

/-- Modelled from the spec: `typemaps.mwv_from_onwrite`, the fixed mapping
table from write side-effect classifier to the IP-XACT
modifiedWriteValue vocabulary (module not under `src/`). -/
def mwv_from_onwrite : OnWriteType → String
  | .woset => "oneToSet"
  | .woclr => "oneToClear"
  | .wot => "oneToToggle"
  | .wzs => "zeroToSet"
  | .wzc => "zeroToClear"
  | .wzt => "zeroToToggle"
  | .wclr => "clear"
  | .wset => "set"

/-- Modelled from the spec: read side-effect classifiers of the source
model (`systemrdl` `OnReadType`, external collaborator). -/
inductive OnReadType where
  | rclr | rset | ruser
deriving DecidableEq

/-- Modelled from the spec: `typemaps.readaction_from_onread`, the fixed
mapping table from read side-effect classifier to the IP-XACT readAction
vocabulary (module not under `src/`). -/
def readaction_from_onread : OnReadType → String
  | .rclr => "clear"
  | .rset => "set"
  | .ruser => "modify"

/-- XML document trees, abstracting `xml.dom.minidom` documents: elements
carry a tag, attributes in order, and children in order. -/
inductive XML where
  | elem (tag : String) (attrs : List (String × String)) (children : List XML)
  | text (s : String)
  | comment (s : String)

/-- Hex-literal formatting, method `hex_str` (exporter.py:249-253).
`"%x"` formats in lowercase hexadecimal; the 2014 prefix is an
apostrophe followed by `h`. -/
def hex_str (std : Standard) (v : Nat) : String :=
  if 2014 ≤ std.toNat then "\x27h" ++ String.mk (Nat.toDigits 16 v)
  else "0x" ++ String.mk (Nat.toDigits 16 v)

/-- Method `add_value` (exporter.py:201-205): a tagged element holding one
text node. -/
def add_value (tag v : String) : XML := XML.elem tag [] [XML.text v]

/-- Method `add_nameGroup` (exporter.py:208-213): name, then optional
displayName, then optional description. -/
def add_nameGroup (ns name : String) (displayName description : Option String) : List XML :=
  [add_value (ns ++ "name") name]
    ++ (match displayName with
        | some s => [add_value (ns ++ "displayName") s]
        | none => [])
    ++ (match description with
        | some s => [add_value (ns ++ "description") s]
        | none => [])

/-- One member of a field's enumerated-value set (`systemrdl` enum member:
`name`, `rdl_name`, `rdl_desc`, `value`). -/
structure EnumValue where
  name : String
  rdl_name : Option String
  rdl_desc : Option String
  value : Nat

/-- The attributes of a `FieldNode` that `add_field` and `add_register`
read.  `low` is the low bit position, `lsb` the least-significant bit
(these coincide except under msb0 bit ordering, so both are kept);
`name_p`/`desc_p` are `get_property("name", default=None)` /
`get_property("desc")`. -/
structure FieldData where
  inst_name : String
  name_p : Option String
  desc_p : Option String
  ispresent : Bool
  low : Nat
  lsb : Nat
  width : Nat
  reset : Option Nat
  is_volatile : Bool
  sw : AccessType
  encode : Option (List EnumValue)
  onwrite : Option OnWriteType
  onread : Option OnReadType
  donttest : Bool

/-- The attributes of a `RegNode` that `add_register` reads. -/
structure RegData where
  inst_name : String
  name_p : Option String
  desc_p : Option String
  ispresent : Bool
  raw_address_offset : Nat
  is_array : Bool
  array_dimensions : List Nat
  array_stride : Nat
  regwidth : Nat
  fields : List FieldData

/-- The attributes of the non-register addressable nodes (`AddrmapNode`,
`RegfileNode`, `MemNode`) that the exporter reads.  `memwidth` and `sw`
are only read on `MemNode`s, `bridge` only on `AddrmapNode`s. -/
structure BlockData where
  inst_name : String
  name_p : Option String
  desc_p : Option String
  ispresent : Bool
  absolute_address : Nat
  raw_address_offset : Nat
  size : Nat
  is_array : Bool
  array_dimensions : List Nat
  array_stride : Nat
  memwidth : Nat
  sw : AccessType
  bridge : Bool

/-- The source node tree.  `other` stands for a child that is not an
`AddressableNode` (e.g. a signal): every traversal loop in the exporter
skips such children. -/
inductive RNode where
  | reg (d : RegData)
  | regfile (d : BlockData) (children : List RNode)
  | addrmap (d : BlockData) (children : List RNode)
  | mem (d : BlockData) (children : List RNode)
  | other

/-- Warnings routed through `self.msg.warning` (the message sink). -/
inductive Message where
  | memNested (inst_name : String)
  | bridgeIgnored (inst_name : String)
deriving DecidableEq

/-- Fatal errors routed through `self.msg.fatal`; in `systemrdl` these
raise, aborting the export before the output file is written. -/
inductive Fatal where
  | regArrayStride (inst_name : String)
deriving DecidableEq

/-- The running-maximum update performed by `add_register`
(exporter.py:388-391) on `self._max_width`. -/
def omax : Option Nat → Nat → Option Nat
  | none, w => some w
  | some m, w => some (max w m)

/-- The aggregated (value, mask) pair folded over a register's fields for
the 2009 register-level reset (exporter.py:396-405). -/
def reg_reset_fold (fields : List FieldData) : Nat × Nat :=
  fields.foldl
    (fun acc f =>
      match f.reset with
      | none => acc
      | some r =>
        let field_mask := ((1 <<< f.width) - 1) <<< f.lsb
        let field_reset := (r <<< f.lsb) &&& field_mask
        (acc.1 ||| field_reset, acc.2 ||| field_mask))
    (0, 0)

/-- Method `add_field` (exporter.py:425-506).  The base class's
`field_vendorExtensions` hook is a no-op, so the vendorExtensions
container stays empty and is never appended (exporter.py:503-506). -/
def add_field (std : Standard) (f : FieldData) : XML :=
  let ns := nsOf std
  XML.elem (ns ++ "field") []
    (add_nameGroup ns f.inst_name f.name_p f.desc_p
      ++ (if 2014 ≤ std.toNat && !f.ispresent then [add_value (ns ++ "isPresent") "0"] else [])
      ++ [add_value (ns ++ "bitOffset") (toString f.low)]
      ++ (if 2014 ≤ std.toNat then
            match f.reset with
            | some r =>
              [XML.elem (ns ++ "resets") []
                [XML.elem (ns ++ "reset") [] [add_value (ns ++ "value") (hex_str std r)]]]
            | none => []
          else [])
      ++ [add_value (ns ++ "bitWidth") (toString f.width)]
      ++ (if f.is_volatile then [add_value (ns ++ "volatile") "true"] else [])
      ++ [add_value (ns ++ "access") (access_from_sw f.sw)]
      ++ (match f.encode with
          | some evs =>
            [XML.elem (ns ++ "enumeratedValues") []
              (evs.map (fun ev =>
                XML.elem (ns ++ "enumeratedValue") []
                  (add_nameGroup ns ev.name ev.rdl_name ev.rdl_desc
                    ++ [add_value (ns ++ "value") (hex_str std ev.value)])))]
          | none => [])
      ++ (match f.onwrite with
          | some ow => [add_value (ns ++ "modifiedWriteValue") (mwv_from_onwrite ow)]
          | none => [])
      ++ (match f.onread with
          | some orv => [add_value (ns ++ "readAction") (readaction_from_onread orv)]
          | none => [])
      ++ (if f.donttest then [add_value (ns ++ "testable") "false"] else []))

/-- Method `add_register` (exporter.py:360-422), minus the recursive
descent (a `RegNode` has no sub-registers; its fields are rendered by
`add_field`).  Returns the rendered element and the updated
`self._max_width`.  The stride check (exporter.py:374) compares the
integer `array_stride` against the Python float `regwidth / 8`; rationals
model that division exactly. -/
def add_register (std : Standard) (mw : Option Nat) (d : RegData) :
    Except Fatal (XML × Option Nat) :=
  let ns := nsOf std
  if d.is_array && decide ((d.array_stride : ℚ) ≠ (d.regwidth : ℚ) / 8) then
    .error (.regArrayStride d.inst_name)
  else
    let mw' := omax mw d.regwidth
    let rm := reg_reset_fold d.fields
    .ok
      (XML.elem (ns ++ "register") []
        (add_nameGroup ns d.inst_name d.name_p d.desc_p
          ++ (if 2014 ≤ std.toNat && !d.ispresent then [add_value (ns ++ "isPresent") "0"] else [])
          ++ (if d.is_array then
                d.array_dimensions.map (fun dim => add_value (ns ++ "dim") (toString dim))
              else [])
          ++ [add_value (ns ++ "addressOffset") (hex_str std d.raw_address_offset)]
          ++ [add_value (ns ++ "size") (toString d.regwidth)]
          ++ (if std.toNat ≤ 2009 then
                if rm.2 ≠ 0 then
                  [XML.elem (ns ++ "reset") []
                    [add_value (ns ++ "value") (hex_str std rm.1),
                     add_value (ns ++ "mask") (hex_str std rm.2)]]
                else []
              else [])
          ++ d.fields.map (add_field std)),
       mw')

/-- The three traversal loops inside `add_registerData`
(exporter.py:216-246): the single interleaving 2014 loop
(exporter.py:219-229), the first 2009 loop that emits only registers
(exporter.py:232-234), and the second 2009 loop that emits only register
files and warns on nested memories (exporter.py:236-244). -/
inductive Pass where
  | interleaved
  | regsOnly
  | filesOnly
deriving DecidableEq

/-- The children of a registerFile element that precede the nested
register data (exporter.py:326-348): nameGroup, optional isPresent,
dims when arrayed, addressOffset, then range — the array stride when
arrayed (exporter.py:343-346), the byte size otherwise. -/
def registerFileHead (std : Standard) (d : BlockData) : List XML :=
  let ns := nsOf std
  add_nameGroup ns d.inst_name d.name_p d.desc_p
    ++ (if 2014 ≤ std.toNat && !d.ispresent then [add_value (ns ++ "isPresent") "0"] else [])
    ++ (if d.is_array then
          d.array_dimensions.map (fun dim => add_value (ns ++ "dim") (toString dim))
        else [])
    ++ [add_value (ns ++ "addressOffset") (hex_str std d.raw_address_offset)]
    ++ (if d.is_array then [add_value (ns ++ "range") (hex_str std d.array_stride)]
        else [add_value (ns ++ "range") (hex_str std d.size)])

/-- One loop of `add_registerData`, together with the recursive descent of
`add_registerFile` (exporter.py:322-357) inlined at the regfile/addrmap
case (the descent re-dispatches on the standard exactly as
`add_registerData` does).  Children that are not addressable nodes are
skipped by every loop. -/
def rdGo (std : Standard) (pass : Pass) (cs : List RNode) (mw : Option Nat) :
    Except Fatal (List XML × Option Nat × List Message) :=
  match cs with
  | [] => .ok ([], mw, [])
  | c :: rest =>
    match c with
    | .reg d =>
      match pass with
      | .filesOnly => rdGo std pass rest mw
      | _ => do
        let (x, mw1) ← add_register std mw d
        let (xs, mw2, ws) ← rdGo std pass rest mw1
        pure (x :: xs, mw2, ws)
    | .regfile d cs' =>
      match pass with
      | .regsOnly => rdGo std pass rest mw
      | _ => do
        let (inner, mw1, ws1) ←
          (match std with
           | .IEEE_1685_2014 => rdGo std .interleaved cs' mw
           | .IEEE_1685_2009 => do
             let (xs1, mwa, wsa) ← rdGo std .regsOnly cs' mw
             let (xs2, mwb, wsb) ← rdGo std .filesOnly cs' mwa
             pure (xs1 ++ xs2, mwb, wsa ++ wsb))
        let (xs, mw2, ws2) ← rdGo std pass rest mw1
        pure (XML.elem (nsOf std ++ "registerFile") [] (registerFileHead std d ++ inner) :: xs,
              mw2, ws1 ++ ws2)
    | .addrmap d cs' =>
      match pass with
      | .regsOnly => rdGo std pass rest mw
      | _ => do
        let (inner, mw1, ws1) ←
          (match std with
           | .IEEE_1685_2014 => rdGo std .interleaved cs' mw
           | .IEEE_1685_2009 => do
             let (xs1, mwa, wsa) ← rdGo std .regsOnly cs' mw
             let (xs2, mwb, wsb) ← rdGo std .filesOnly cs' mwa
             pure (xs1 ++ xs2, mwb, wsa ++ wsb))
        let (xs, mw2, ws2) ← rdGo std pass rest mw1
        pure (XML.elem (nsOf std ++ "registerFile") [] (registerFileHead std d ++ inner) :: xs,
              mw2, ws1 ++ ws2)
    | .mem d _ =>
      match pass with
      | .regsOnly => rdGo std pass rest mw
      | _ => do
        let (xs, mw2, ws) ← rdGo std pass rest mw
        pure (xs, mw2, Message.memNested d.inst_name :: ws)
    | .other => rdGo std pass rest mw
termination_by sizeOf cs

/-- Method `add_registerData` (exporter.py:216-246): under 2014 one
interleaving loop over the children; under 2009 a register-only loop
followed by a registerFile-only loop (registers always precede register
files). -/
def add_registerData (std : Standard) (cs : List RNode) (mw : Option Nat) :
    Except Fatal (List XML × Option Nat × List Message) :=
  match std with
  | .IEEE_1685_2014 => rdGo std .interleaved cs mw
  | .IEEE_1685_2009 => do
    let (xs1, mwa, wsa) ← rdGo std .regsOnly cs mw
    let (xs2, mwb, wsb) ← rdGo std .filesOnly cs mwa
    pure (xs1 ++ xs2, mwb, wsa ++ wsb)

/-- Method `add_registerFile` (exporter.py:322-357).  The base class's
`registerFile_vendorExtensions` hook is a no-op, so the vendorExtensions
container stays empty and is never appended. -/
def add_registerFile (std : Standard) (d : BlockData) (cs : List RNode) (mw : Option Nat) :
    Except Fatal (XML × Option Nat × List Message) := do
  let (inner, mw', ws) ← add_registerData std cs mw
  pure (XML.elem (nsOf std ++ "registerFile") [] (registerFileHead std d ++ inner), mw', ws)

/-- Method `add_addressBlock` (exporter.py:266-319).  `self._max_width`
is reset to `None` on entry (exporter.py:267); the width element keeps
its document position (before usage/access and the register data) and
its text is resolved after the subtree is rendered (exporter.py:306-314):
the running maximum when one exists, else `memwidth` for a mem node,
else `"32"`.  The vendorExtensions hook is a no-op as above. -/
def add_addressBlock (std : Standard) (isMem : Bool) (d : BlockData) (cs : List RNode) :
    Except Fatal (XML × List Message) := do
  let ns := nsOf std
  let (inner, mwFinal, ws) ← add_registerData std cs none
  let mw2 := if isMem then (match mwFinal with | none => some d.memwidth | some m => some m)
             else mwFinal
  let widthText := match mw2 with | some m => toString m | none => "32"
  pure
    (XML.elem (ns ++ "addressBlock") []
      (add_nameGroup ns d.inst_name d.name_p d.desc_p
        ++ (if 2014 ≤ std.toNat && !d.ispresent then [add_value (ns ++ "isPresent") "0"] else [])
        ++ [add_value (ns ++ "baseAddress") (hex_str std d.absolute_address)]
        ++ [add_value (ns ++ "range") (hex_str std d.size)]
        ++ [XML.elem (ns ++ "width") [] [XML.text widthText]]
        ++ (if isMem then
              [add_value (ns ++ "usage") "memory",
               add_value (ns ++ "access") (access_from_sw d.sw)]
            else [])
        ++ inner),
     ws)

/-- Constructor configuration held by the exporter object (`__init__`,
exporter.py:27-66).  `xml_indent` and `xml_newline` only affect the
serialization of the finished document, not its content. -/
structure ExporterCfg where
  vendor : String
  library : String
  version : String
  standard : Standard

/-- Default constructor values (exporter.py:50-53). -/
def defaultCfg : ExporterCfg :=
  { vendor := "example.org", library := "mylibrary", version := "1.0",
    standard := .IEEE_1685_2014 }

/-- Keyword arguments `__init__` pops (exporter.py:50-55). -/
def init_known_kwargs : List String :=
  ["vendor", "library", "version", "standard", "xml_indent", "xml_newline"]

/-- The keywords left over after `__init__` pops the known ones. -/
def init_stray_kwargs (kwargs : List String) : List String :=
  kwargs.filter (fun k => !init_known_kwargs.contains k)

/-- `__init__` raises `TypeError` iff a stray keyword remains
(exporter.py:59-61). -/
def init_raises (kwargs : List String) : Bool :=
  !(init_stray_kwargs kwargs).isEmpty

/-- The `node` argument of `export`: either the hierarchy's root node
(whose `.top` is taken, exporter.py:91-92) or a plain node. -/
inductive ExportArg where
  | root (top : RNode)
  | node (n : RNode)

/-- Root unwrapping (exporter.py:91-92). -/
def ExportArg.resolve : ExportArg → RNode
  | .root t => t
  | .node n => n

/-- Errors `export` can signal: `TypeError`s raised directly by the method
(exporter.py:88, 95) and fatal messages raised through the message sink. -/
inductive ExportError where
  | typeError (msg : String)
  | fatal (f : Fatal)
deriving DecidableEq

/-- The child-counting loop of the explode decision (exporter.py:147-161):
non-addressable children are skipped; a non-array addrmap or mem child
counts as addrblockable, every other addressable child as
non-addrblockable.  Returns (addrblockable, non-addrblockable). -/
def addrblockable_counts (cs : List RNode) : Nat × Nat :=
  cs.foldl
    (fun acc c =>
      match c with
      | .other => acc
      | .addrmap d _ => if !d.is_array then (acc.1 + 1, acc.2) else (acc.1, acc.2 + 1)
      | .mem d _ => if !d.is_array then (acc.1 + 1, acc.2) else (acc.1, acc.2 + 1)
      | .reg _ => (acc.1, acc.2 + 1)
      | .regfile _ _ => (acc.1, acc.2 + 1))
    (0, 0)

/-- The top node is exploded iff it has no non-addrblockable child and at
least one addrblockable child (exporter.py:160-161); only an addrmap top
runs the counting loop at all (exporter.py:147). -/
def explode_decision (cs : List RNode) : Bool :=
  (addrblockable_counts cs).2 == 0 && 1 ≤ (addrblockable_counts cs).1

/-- The explode loop (exporter.py:175-179): every addressable child
becomes its own addressBlock.  When `explode_decision` holds every
addressable child is a non-array addrmap or mem, so the two dispatched
cases below are the only reachable ones; non-addressable children are
skipped as in the source loop. -/
def explode_children (std : Standard) : List RNode → Except Fatal (List XML × List Message)
  | [] => .ok ([], [])
  | c :: rest =>
    match c with
    | .addrmap d cs => do
      let (x, ws1) ← add_addressBlock std false d cs
      let (xs, ws2) ← explode_children std rest
      pure (x :: xs, ws1 ++ ws2)
    | .mem d cs => do
      let (x, ws1) ← add_addressBlock std true d cs
      let (xs, ws2) ← explode_children std rest
      pure (x :: xs, ws1 ++ ws2)
    | _ => explode_children std rest

/-- The fixed generator comment placed before the document root
(exporter.py:106). -/
def generatorComment : String :=
  "Generated by PeakRDL IP-XACT (https://github.com/SystemRDL/PeakRDL-ipxact)"

/-- Namespace and schema-location attributes of the component element
(exporter.py:111-118). -/
def componentAttrs : Standard → List (String × String)
  | .IEEE_1685_2014 =>
    [("xmlns:ipxact", "http://www.accellera.org/XMLSchema/IPXACT/1685-2014"),
     ("xmlns:xsi", "http://www.w3.org/2001/XMLSchema-instance"),
     ("xsi:schemaLocation",
      "http://www.accellera.org/XMLSchema/IPXACT/1685-2014 http://www.accellera.org/XMLSchema/IPXACT/1685-2014/index.xsd")]
  | .IEEE_1685_2009 =>
    [("xmlns:spirit", "http://www.spiritconsortium.org/XMLSchema/SPIRIT/1685-2009"),
     ("xmlns:xsi", "http://www.w3.org/2001/XMLSchema-instance"),
     ("xsi:schemaLocation",
      "http://www.spiritconsortium.org/XMLSchema/SPIRIT/1685-2009 http://www.spiritconsortium.org/XMLSchema/SPIRIT/1685-2009/index.xsd")]

/-- Python's `component_name or node.inst_name` (exporter.py:127): `None`
and the empty string both fall back to the instance name. -/
def py_or (a : Option String) (b : String) : String :=
  match a with
  | none => b
  | some s => if s.isEmpty then b else s

/-- The document built by `export` after the argument checks
(exporter.py:97-189), for a resolved top node that is an addrmap
(`isMem = false`) or a mem (`isMem = true`): bridge warning, generator
comment, component envelope with vendor/library/name/version, then one
memoryMap — either the exploded rendering (full nameGroup plus one
addressBlock per addressable child) or the wrapped one (name only, the
top node as the sole addressBlock). -/
def buildDoc (cfg : ExporterCfg) (component_name : Option String) (isMem : Bool)
    (d : BlockData) (cs : List RNode) : Except Fatal (List XML × List Message) := do
  let std := cfg.standard
  let ns := nsOf std
  let ws0 := if !isMem && d.bridge then [Message.bridgeIgnored d.inst_name] else []
  let (mmapChildren, ws1) ←
    (if !isMem && explode_decision cs then do
      let (blocks, ws) ← explode_children std cs
      pure (add_nameGroup ns d.inst_name d.name_p d.desc_p ++ blocks, ws)
    else do
      let (block, ws) ← add_addressBlock std isMem d cs
      pure (add_nameGroup ns d.inst_name none none ++ [block], ws))
  let mmap := XML.elem (ns ++ "memoryMap") [] mmapChildren
  let comp := XML.elem (ns ++ "component") (componentAttrs std)
    ([add_value (ns ++ "vendor") cfg.vendor,
      add_value (ns ++ "library") cfg.library,
      add_value (ns ++ "name") (py_or component_name d.inst_name),
      add_value (ns ++ "version") cfg.version]
      ++ [XML.elem (ns ++ "memoryMaps") [] [mmap]])
  pure ([XML.comment generatorComment, comp], ws0 ++ ws1)

/-- Method `export` (exporter.py:69-198): pops `component_name` and
raises `TypeError` on any other keyword (exporter.py:84-88); unwraps a
root node; raises `TypeError` unless the node is an addrmap or mem
(exporter.py:94-95); then builds the document.  The Python method then
serializes the document to the output path, so a fatal abort means no
output file is written.  Returns the document's top-level nodes together
with the warnings sent to the message sink. -/
def export_ (cfg : ExporterCfg) (arg : ExportArg) (component_name : Option String)
    (stray_kwargs : List String) : Except ExportError (List XML × List Message) :=
  if !(stray_kwargs.filter (fun k => k != "component_name")).isEmpty then
    .error (.typeError "got an unexpected keyword argument")
  else
    match arg.resolve with
    | .addrmap d cs =>
      match buildDoc cfg component_name false d cs with
      | .ok r => .ok r
      | .error f => .error (.fatal f)
    | .mem d cs =>
      match buildDoc cfg component_name true d cs with
      | .ok r => .ok r
      | .error f => .error (.fatal f)
    | _ => .error (.typeError "node argument expects type AddrmapNode or MemNode")

/-! Observation helpers for stating properties of the produced documents. -/

/-- The direct children of an XML node (empty for text and comments). -/
def XML.childrenOf : XML → List XML
  | .elem _ _ cs => cs
  | _ => []

/-- The tag of an XML node, when it is an element. -/
def getTag : XML → Option String
  | .elem t _ _ => some t
  | _ => none

/-- How many direct members of `xs` are elements tagged `t`. -/
def countTag (t : String) (xs : List XML) : Nat :=
  xs.countP (fun x => getTag x == some t)

/-- The direct members of `xs` that are elements tagged `t`, in order. -/
def filterTag (t : String) (xs : List XML) : List XML :=
  xs.filter (fun x => getTag x == some t)

theorem countTag_append (t : String) (xs ys : List XML) :
    countTag t (xs ++ ys) = countTag t xs + countTag t ys :=
  List.countP_append _ _ _

theorem filterTag_append (t : String) (xs ys : List XML) :
    filterTag t (xs ++ ys) = filterTag t xs ++ filterTag t ys :=
  List.filter_append _ _

/-- Appending distinct suffixes to one namespace prefix yields distinct
tags. -/
theorem ns_append_ne (ns : String) {a b : String} (h : a ≠ b) : ns ++ a ≠ ns ++ b := by
  intro he
  apply h
  have hd : (ns ++ a).data = (ns ++ b).data := by rw [he]
  rw [String.data_append, String.data_append] at hd
  exact String.ext (List.append_cancel_left hd)

/-- `omax` is insensitive to the order of its updates. -/
theorem omax_right_comm (a : Option Nat) (w₁ w₂ : Nat) :
    omax (omax a w₁) w₂ = omax (omax a w₂) w₁ := by
  cases a <;> simp [omax, Nat.max_comm, Nat.max_left_comm]

/-- The value of the running-maximum accumulator after a list of register
widths has been folded in. -/
def mwAfter (mw : Option Nat) (ws : List Nat) : Option Nat :=
  ws.foldl omax mw

theorem mwAfter_perm {l₁ l₂ : List Nat} (p : List.Perm l₁ l₂) :
    ∀ mw, mwAfter mw l₁ = mwAfter mw l₂ := by
  induction p with
  | nil => intro mw; rfl
  | cons x _ ih => intro mw; exact ih (omax mw x)
  | swap x y l => intro mw; simp only [mwAfter, List.foldl_cons]; rw [omax_right_comm]
  | trans _ _ ih₁ ih₂ => intro mw; exact (ih₁ mw).trans (ih₂ mw)

theorem mwAfter_some (a : Nat) (l : List Nat) :
    mwAfter (some a) l = some (List.foldl max a l) := by
  induction l generalizing a with
  | nil => rfl
  | cons w ws ih =>
    simp only [mwAfter, List.foldl_cons, omax] at ih ⊢
    rw [ih, Nat.max_comm]

theorem mwAfter_cons_none (w : Nat) (l : List Nat) :
    mwAfter none (w :: l) = some (List.foldl max w l) := by
  simp only [mwAfter, List.foldl_cons, omax]
  exact mwAfter_some w l

/-- The bit-widths of all registers that the register-hierarchy traversal
emits anywhere beneath a list of children, in 2014 (interleaved) source
order: register children contribute their `regwidth`, regfile/addrmap
children contribute their whole subtree, mem children are dropped, and
non-addressable children are skipped. -/
def emittedRegWidths : List RNode → List Nat
  | [] => []
  | c :: rest =>
    (match c with
     | .reg d => [d.regwidth]
     | .regfile _ cs' => emittedRegWidths cs'
     | .addrmap _ cs' => emittedRegWidths cs'
     | _ => []) ++ emittedRegWidths rest
termination_by cs => sizeOf cs

/-- The register widths folded into the accumulator by one `rdGo` loop,
in emission order (mirrors the recursion of `rdGo`). -/
def passWidths (std : Standard) (pass : Pass) (cs : List RNode) : List Nat :=
  match cs with
  | [] => []
  | c :: rest =>
    match c with
    | .reg d =>
      match pass with
      | .filesOnly => passWidths std pass rest
      | _ => d.regwidth :: passWidths std pass rest
    | .regfile _ cs' =>
      match pass with
      | .regsOnly => passWidths std pass rest
      | _ =>
        (match std with
         | .IEEE_1685_2014 => passWidths std .interleaved cs'
         | .IEEE_1685_2009 =>
           passWidths std .regsOnly cs' ++ passWidths std .filesOnly cs')
          ++ passWidths std pass rest
    | .addrmap _ cs' =>
      match pass with
      | .regsOnly => passWidths std pass rest
      | _ =>
        (match std with
         | .IEEE_1685_2014 => passWidths std .interleaved cs'
         | .IEEE_1685_2009 =>
           passWidths std .regsOnly cs' ++ passWidths std .filesOnly cs')
          ++ passWidths std pass rest
    | .mem _ _ => passWidths std pass rest
    | .other => passWidths std pass rest
termination_by sizeOf cs

/-! Unfolding equations for `rdGo`, phrased through `add_registerData` at
the recursive descent. -/

theorem rdGo_nil (std : Standard) (pass : Pass) (mw : Option Nat) :
    rdGo std pass [] mw = .ok ([], mw, []) := by
  simp [rdGo]

theorem rdGo_cons_reg (std : Standard) (pass : Pass) (mw : Option Nat)
    (rest : List RNode) (d : RegData) (hp : pass ≠ .filesOnly) :
    rdGo std pass (.reg d :: rest) mw = (do
      let (x, mw1) ← add_register std mw d
      let (xs, mw2, ws) ← rdGo std pass rest mw1
      pure (x :: xs, mw2, ws)) := by
  cases pass with
  | filesOnly => exact absurd rfl hp
  | interleaved => simp [rdGo]
  | regsOnly => simp [rdGo]

theorem rdGo_cons_reg_files (std : Standard) (mw : Option Nat)
    (rest : List RNode) (d : RegData) :
    rdGo std .filesOnly (.reg d :: rest) mw = rdGo std .filesOnly rest mw := by
  simp [rdGo]

theorem rdGo_cons_regfile (std : Standard) (pass : Pass) (mw : Option Nat)
    (rest : List RNode) (d : BlockData) (cs' : List RNode) (hp : pass ≠ .regsOnly) :
    rdGo std pass (.regfile d cs' :: rest) mw = (do
      let (inner, mw1, ws1) ← add_registerData std cs' mw
      let (xs, mw2, ws2) ← rdGo std pass rest mw1
      pure (XML.elem (nsOf std ++ "registerFile") [] (registerFileHead std d ++ inner) :: xs,
            mw2, ws1 ++ ws2)) := by
  cases pass with
  | regsOnly => exact absurd rfl hp
  | interleaved => cases std <;> simp [rdGo, add_registerData]
  | filesOnly => cases std <;> simp [rdGo, add_registerData]

theorem rdGo_cons_regfile_regs (std : Standard) (mw : Option Nat)
    (rest : List RNode) (d : BlockData) (cs' : List RNode) :
    rdGo std .regsOnly (.regfile d cs' :: rest) mw = rdGo std .regsOnly rest mw := by
  simp [rdGo]

theorem rdGo_cons_addrmap (std : Standard) (pass : Pass) (mw : Option Nat)
    (rest : List RNode) (d : BlockData) (cs' : List RNode) (hp : pass ≠ .regsOnly) :
    rdGo std pass (.addrmap d cs' :: rest) mw = (do
      let (inner, mw1, ws1) ← add_registerData std cs' mw
      let (xs, mw2, ws2) ← rdGo std pass rest mw1
      pure (XML.elem (nsOf std ++ "registerFile") [] (registerFileHead std d ++ inner) :: xs,
            mw2, ws1 ++ ws2)) := by
  cases pass with
  | regsOnly => exact absurd rfl hp
  | interleaved => cases std <;> simp [rdGo, add_registerData]
  | filesOnly => cases std <;> simp [rdGo, add_registerData]

theorem rdGo_cons_addrmap_regs (std : Standard) (mw : Option Nat)
    (rest : List RNode) (d : BlockData) (cs' : List RNode) :
    rdGo std .regsOnly (.addrmap d cs' :: rest) mw = rdGo std .regsOnly rest mw := by
  simp [rdGo]

theorem rdGo_cons_mem (std : Standard) (pass : Pass) (mw : Option Nat)
    (rest : List RNode) (d : BlockData) (mcs : List RNode) (hp : pass ≠ .regsOnly) :
    rdGo std pass (.mem d mcs :: rest) mw = (do
      let (xs, mw2, ws) ← rdGo std pass rest mw
      pure (xs, mw2, Message.memNested d.inst_name :: ws)) := by
  cases pass with
  | regsOnly => exact absurd rfl hp
  | interleaved => simp [rdGo]
  | filesOnly => simp [rdGo]

theorem rdGo_cons_mem_regs (std : Standard) (mw : Option Nat)
    (rest : List RNode) (d : BlockData) (mcs : List RNode) :
    rdGo std .regsOnly (.mem d mcs :: rest) mw = rdGo std .regsOnly rest mw := by
  simp [rdGo]

theorem rdGo_cons_other (std : Standard) (pass : Pass) (mw : Option Nat)
    (rest : List RNode) :
    rdGo std pass (.other :: rest) mw = rdGo std pass rest mw := by
  simp [rdGo]

/-- The register widths a regfile/addrmap child's subtree folds into the
accumulator, in emission order. -/
def subtreeWidths (std : Standard) (cs' : List RNode) : List Nat :=
  match std with
  | .IEEE_1685_2014 => passWidths std .interleaved cs'
  | .IEEE_1685_2009 => passWidths std .regsOnly cs' ++ passWidths std .filesOnly cs'

theorem passWidths_nil (std : Standard) (pass : Pass) : passWidths std pass [] = [] := by
  simp [passWidths]

theorem passWidths_cons_reg (std : Standard) (pass : Pass) (rest : List RNode)
    (d : RegData) (hp : pass ≠ .filesOnly) :
    passWidths std pass (.reg d :: rest) = d.regwidth :: passWidths std pass rest := by
  cases pass with
  | filesOnly => exact absurd rfl hp
  | interleaved => simp [passWidths]
  | regsOnly => simp [passWidths]

theorem passWidths_cons_reg_files (std : Standard) (rest : List RNode) (d : RegData) :
    passWidths std .filesOnly (.reg d :: rest) = passWidths std .filesOnly rest := by
  simp [passWidths]

theorem passWidths_cons_regfile (std : Standard) (pass : Pass) (rest : List RNode)
    (d : BlockData) (cs' : List RNode) (hp : pass ≠ .regsOnly) :
    passWidths std pass (.regfile d cs' :: rest)
      = subtreeWidths std cs' ++ passWidths std pass rest := by
  cases pass with
  | regsOnly => exact absurd rfl hp
  | interleaved => cases std <;> simp [passWidths, subtreeWidths]
  | filesOnly => cases std <;> simp [passWidths, subtreeWidths]

theorem passWidths_cons_regfile_regs (std : Standard) (rest : List RNode)
    (d : BlockData) (cs' : List RNode) :
    passWidths std .regsOnly (.regfile d cs' :: rest) = passWidths std .regsOnly rest := by
  simp [passWidths]

theorem passWidths_cons_addrmap (std : Standard) (pass : Pass) (rest : List RNode)
    (d : BlockData) (cs' : List RNode) (hp : pass ≠ .regsOnly) :
    passWidths std pass (.addrmap d cs' :: rest)
      = subtreeWidths std cs' ++ passWidths std pass rest := by
  cases pass with
  | regsOnly => exact absurd rfl hp
  | interleaved => cases std <;> simp [passWidths, subtreeWidths]
  | filesOnly => cases std <;> simp [passWidths, subtreeWidths]

theorem passWidths_cons_addrmap_regs (std : Standard) (rest : List RNode)
    (d : BlockData) (cs' : List RNode) :
    passWidths std .regsOnly (.addrmap d cs' :: rest) = passWidths std .regsOnly rest := by
  simp [passWidths]

theorem passWidths_cons_mem (std : Standard) (pass : Pass) (rest : List RNode)
    (d : BlockData) (mcs : List RNode) :
    passWidths std pass (.mem d mcs :: rest) = passWidths std pass rest := by
  cases pass <;> simp [passWidths]

theorem passWidths_cons_other (std : Standard) (pass : Pass) (rest : List RNode) :
    passWidths std pass (.other :: rest) = passWidths std pass rest := by
  cases pass <;> simp [passWidths]

/-- A successful `add_register` updates the accumulator with
`omax mw regwidth` (exporter.py:388-391). -/
theorem add_register_ok_mw (std : Standard) (mw : Option Nat) (d : RegData)
    (x : XML) (mw1 : Option Nat) (h : add_register std mw d = .ok (x, mw1)) :
    mw1 = omax mw d.regwidth := by
  unfold add_register at h
  split at h
  · exact absurd h (by simp)
  · simp only [Except.ok.injEq, Prod.mk.injEq] at h
    exact h.2.symm

/-- After one traversal loop succeeds, the accumulator equals the fold of
the loop's emitted register widths. -/
theorem rdGo_mw (std : Standard) (pass : Pass) (cs : List RNode) (mw : Option Nat) :
    ∀ xs mw' ws, rdGo std pass cs mw = .ok (xs, mw', ws) →
      mw' = mwAfter mw (passWidths std pass cs) := by
  induction pass, cs, mw using rdGo.induct std with
  | case1 pass mw =>
    intro xs mw' ws h
    rw [rdGo_nil] at h
    simp only [Except.ok.injEq, Prod.mk.injEq] at h
    rw [passWidths_nil]
    exact h.2.1.symm
  | case2 mw rest d ih =>
    intro xs mw' ws h
    rw [rdGo_cons_reg_files] at h
    rw [passWidths_cons_reg_files]
    exact ih _ _ _ h
  | case3 pass mw rest d hp ih =>
    intro xs mw' ws h
    rw [rdGo_cons_reg std pass mw rest d (fun he => hp he)] at h
    rw [passWidths_cons_reg std pass rest d (fun he => hp he)]
    cases hreg : add_register std mw d with
    | error f => rw [hreg] at h; simp [Bind.bind, Except.bind] at h
    | ok p =>
      obtain ⟨x, mw1⟩ := p
      rw [hreg] at h
      simp only [Bind.bind, Except.bind] at h
      cases hrest : rdGo std pass rest mw1 with
      | error f => rw [hrest] at h; simp at h
      | ok q =>
        obtain ⟨xs2, mw2, ws2⟩ := q
        rw [hrest] at h
        simp only [pure, Except.pure, Except.ok.injEq, Prod.mk.injEq] at h
        obtain ⟨-, hmw, -⟩ := h
        subst hmw
        have hmw2 := ih mw1 xs2 mw2 ws2 hrest
        rw [add_register_ok_mw std mw d x mw1 hreg] at hmw2
        exact hmw2
  | case4 mw rest d cs2 ih =>
    intro xs mw' ws h
    rw [rdGo_cons_regfile_regs] at h
    rw [passWidths_cons_regfile_regs]
    exact ih _ _ _ h
  | case5 pass mw rest d cs2 hp ih14 ihr ihf ihrest =>
    intro xs mw' ws h
    rw [rdGo_cons_regfile std pass mw rest d cs2 (fun he => hp he)] at h
    rw [passWidths_cons_regfile std pass rest d cs2 (fun he => hp he)]
    cases hin : add_registerData std cs2 mw with
    | error f => rw [hin] at h; simp [Bind.bind, Except.bind] at h
    | ok p =>
      obtain ⟨inner, mw1, ws1⟩ := p
      have hmw1 : mw1 = mwAfter mw (subtreeWidths std cs2) := by
        cases std with
        | IEEE_1685_2014 =>
          exact ih14 _ _ _ hin
        | IEEE_1685_2009 =>
          unfold add_registerData at hin
          cases hr : rdGo .IEEE_1685_2009 .regsOnly cs2 mw with
          | error f => rw [hr] at hin; simp [Bind.bind, Except.bind] at hin
          | ok pr =>
            obtain ⟨xsr, mwr, wsr⟩ := pr
            rw [hr] at hin
            simp only [Bind.bind, Except.bind] at hin
            cases hf : rdGo .IEEE_1685_2009 .filesOnly cs2 mwr with
            | error f => rw [hf] at hin; simp at hin
            | ok pf =>
              obtain ⟨xsf, mwf, wsf⟩ := pf
              rw [hf] at hin
              simp only [pure, Except.pure, Except.ok.injEq, Prod.mk.injEq] at hin
              obtain ⟨-, hmw, -⟩ := hin
              subst hmw
              have h1 := ihr _ _ _ hr
              have h2 := ihf mwr _ _ _ hf
              rw [h1] at h2
              rw [h2]
              simp [subtreeWidths, mwAfter, List.foldl_append]
      rw [hin] at h
      simp only [Bind.bind, Except.bind] at h
      cases hrest : rdGo std pass rest mw1 with
      | error f => rw [hrest] at h; simp at h
      | ok q =>
        obtain ⟨xs2, mw2, ws2⟩ := q
        rw [hrest] at h
        simp only [pure, Except.pure, Except.ok.injEq, Prod.mk.injEq] at h
        obtain ⟨-, hmw, -⟩ := h
        subst hmw
        have hmw2 := ihrest mw1 _ _ _ hrest
        rw [hmw1] at hmw2
        rw [hmw2]
        simp [mwAfter, List.foldl_append]
  | case6 mw rest d cs2 ih =>
    intro xs mw' ws h
    rw [rdGo_cons_addrmap_regs] at h
    rw [passWidths_cons_addrmap_regs]
    exact ih _ _ _ h
  | case7 pass mw rest d cs2 hp ih14 ihr ihf ihrest =>
    intro xs mw' ws h
    rw [rdGo_cons_addrmap std pass mw rest d cs2 (fun he => hp he)] at h
    rw [passWidths_cons_addrmap std pass rest d cs2 (fun he => hp he)]
    cases hin : add_registerData std cs2 mw with
    | error f => rw [hin] at h; simp [Bind.bind, Except.bind] at h
    | ok p =>
      obtain ⟨inner, mw1, ws1⟩ := p
      have hmw1 : mw1 = mwAfter mw (subtreeWidths std cs2) := by
        cases std with
        | IEEE_1685_2014 =>
          exact ih14 _ _ _ hin
        | IEEE_1685_2009 =>
          unfold add_registerData at hin
          cases hr : rdGo .IEEE_1685_2009 .regsOnly cs2 mw with
          | error f => rw [hr] at hin; simp [Bind.bind, Except.bind] at hin
          | ok pr =>
            obtain ⟨xsr, mwr, wsr⟩ := pr
            rw [hr] at hin
            simp only [Bind.bind, Except.bind] at hin
            cases hf : rdGo .IEEE_1685_2009 .filesOnly cs2 mwr with
            | error f => rw [hf] at hin; simp at hin
            | ok pf =>
              obtain ⟨xsf, mwf, wsf⟩ := pf
              rw [hf] at hin
              simp only [pure, Except.pure, Except.ok.injEq, Prod.mk.injEq] at hin
              obtain ⟨-, hmw, -⟩ := hin
              subst hmw
              have h1 := ihr _ _ _ hr
              have h2 := ihf mwr _ _ _ hf
              rw [h1] at h2
              rw [h2]
              simp [subtreeWidths, mwAfter, List.foldl_append]
      rw [hin] at h
      simp only [Bind.bind, Except.bind] at h
      cases hrest : rdGo std pass rest mw1 with
      | error f => rw [hrest] at h; simp at h
      | ok q =>
        obtain ⟨xs2, mw2, ws2⟩ := q
        rw [hrest] at h
        simp only [pure, Except.pure, Except.ok.injEq, Prod.mk.injEq] at h
        obtain ⟨-, hmw, -⟩ := h
        subst hmw
        have hmw2 := ihrest mw1 _ _ _ hrest
        rw [hmw1] at hmw2
        rw [hmw2]
        simp [mwAfter, List.foldl_append]
  | case8 mw rest d children ih =>
    intro xs mw' ws h
    rw [rdGo_cons_mem_regs] at h
    rw [passWidths_cons_mem]
    exact ih _ _ _ h
  | case9 pass mw rest d children hp ih =>
    intro xs mw' ws h
    rw [rdGo_cons_mem std pass mw rest d children (fun he => hp he)] at h
    rw [passWidths_cons_mem]
    cases hrest : rdGo std pass rest mw with
    | error f => rw [hrest] at h; simp [Bind.bind, Except.bind] at h
    | ok q =>
      obtain ⟨xs2, mw2, ws2⟩ := q
      rw [hrest] at h
      simp only [Bind.bind, Except.bind, pure, Except.pure, Except.ok.injEq,
        Prod.mk.injEq] at h
      obtain ⟨-, hmw, -⟩ := h
      subst hmw
      exact ih _ _ _ hrest
  | case10 pass mw rest ih =>
    intro xs mw' ws h
    rw [rdGo_cons_other] at h
    rw [passWidths_cons_other]
    exact ih _ _ _ h

theorem emittedRegWidths_nil : emittedRegWidths [] = [] := by
  simp [emittedRegWidths.eq_def]

theorem emittedRegWidths_cons (c : RNode) (rest : List RNode) :
    emittedRegWidths (c :: rest)
      = (match c with
         | .reg d => [d.regwidth]
         | .regfile _ cs' => emittedRegWidths cs'
         | .addrmap _ cs' => emittedRegWidths cs'
         | _ => []) ++ emittedRegWidths rest := by
  cases c <;> simp [emittedRegWidths]

/-- Each loop's width list is a permutation of the dialect-independent
list of emitted register widths: the 2014 loop directly, the two 2009
loops in combination. -/
theorem passWidths_perm (std : Standard) (cs : List RNode) :
    List.Perm (passWidths std .interleaved cs) (emittedRegWidths cs) ∧
      List.Perm (passWidths std .regsOnly cs ++ passWidths std .filesOnly cs)
        (emittedRegWidths cs) := by
  match cs with
  | [] =>
    simp [passWidths_nil, emittedRegWidths_nil]
  | .reg d :: rest =>
    have ih := passWidths_perm std rest
    constructor
    · rw [passWidths_cons_reg std .interleaved rest d (by decide),
        emittedRegWidths_cons]
      exact ih.1.cons d.regwidth
    · rw [passWidths_cons_reg std .regsOnly rest d (by decide),
        passWidths_cons_reg_files, emittedRegWidths_cons]
      exact ih.2.cons d.regwidth
  | .regfile d cs' :: rest =>
    have ih := passWidths_perm std rest
    have ihcs := passWidths_perm std cs'
    have hsub : List.Perm (subtreeWidths std cs') (emittedRegWidths cs') := by
      cases std with
      | IEEE_1685_2014 => exact ihcs.1
      | IEEE_1685_2009 => exact ihcs.2
    constructor
    · rw [passWidths_cons_regfile std .interleaved rest d cs' (by decide),
        emittedRegWidths_cons]
      exact hsub.append ih.1
    · rw [passWidths_cons_regfile_regs,
        passWidths_cons_regfile std .filesOnly rest d cs' (by decide),
        emittedRegWidths_cons]
      refine List.Perm.trans ?_ (hsub.append ih.2)
      rw [← List.append_assoc, ← List.append_assoc]
      exact (List.perm_append_comm).append_right _
  | .addrmap d cs' :: rest =>
    have ih := passWidths_perm std rest
    have ihcs := passWidths_perm std cs'
    have hsub : List.Perm (subtreeWidths std cs') (emittedRegWidths cs') := by
      cases std with
      | IEEE_1685_2014 => exact ihcs.1
      | IEEE_1685_2009 => exact ihcs.2
    constructor
    · rw [passWidths_cons_addrmap std .interleaved rest d cs' (by decide),
        emittedRegWidths_cons]
      exact hsub.append ih.1
    · rw [passWidths_cons_addrmap_regs,
        passWidths_cons_addrmap std .filesOnly rest d cs' (by decide),
        emittedRegWidths_cons]
      refine List.Perm.trans ?_ (hsub.append ih.2)
      rw [← List.append_assoc, ← List.append_assoc]
      exact (List.perm_append_comm).append_right _
  | .mem d mcs :: rest =>
    have ih := passWidths_perm std rest
    constructor
    · rw [passWidths_cons_mem, emittedRegWidths_cons]
      exact ih.1
    · rw [passWidths_cons_mem, passWidths_cons_mem, emittedRegWidths_cons]
      exact ih.2
  | .other :: rest =>
    have ih := passWidths_perm std rest
    constructor
    · rw [passWidths_cons_other, emittedRegWidths_cons]
      exact ih.1
    · rw [passWidths_cons_other, passWidths_cons_other, emittedRegWidths_cons]
      exact ih.2
termination_by sizeOf cs

/-- After `add_registerData` succeeds, the accumulator equals the fold of
the widths of all registers emitted anywhere beneath the children,
independent of the dialect. -/
theorem add_registerData_mw (std : Standard) (cs : List RNode) (mw : Option Nat)
    (xs : List XML) (mw' : Option Nat) (ws : List Message)
    (h : add_registerData std cs mw = .ok (xs, mw', ws)) :
    mw' = mwAfter mw (emittedRegWidths cs) := by
  cases std with
  | IEEE_1685_2014 =>
    have := rdGo_mw .IEEE_1685_2014 .interleaved cs mw xs mw' ws h
    rw [this]
    exact mwAfter_perm (passWidths_perm .IEEE_1685_2014 cs).1 mw
  | IEEE_1685_2009 =>
    unfold add_registerData at h
    cases hr : rdGo .IEEE_1685_2009 .regsOnly cs mw with
    | error f => rw [hr] at h; simp [Bind.bind, Except.bind] at h
    | ok pr =>
      obtain ⟨xsr, mwr, wsr⟩ := pr
      rw [hr] at h
      simp only [Bind.bind, Except.bind] at h
      cases hf : rdGo .IEEE_1685_2009 .filesOnly cs mwr with
      | error f => rw [hf] at h; simp at h
      | ok pf =>
        obtain ⟨xsf, mwf, wsf⟩ := pf
        rw [hf] at h
        simp only [pure, Except.pure, Except.ok.injEq, Prod.mk.injEq] at h
        obtain ⟨-, hmw, -⟩ := h
        subst hmw
        have h1 := rdGo_mw .IEEE_1685_2009 .regsOnly cs mw _ _ _ hr
        have h2 := rdGo_mw .IEEE_1685_2009 .filesOnly cs mwr _ _ _ hf
        rw [h1] at h2
        rw [h2]
        have : mwAfter (mwAfter mw (passWidths .IEEE_1685_2009 .regsOnly cs))
            (passWidths .IEEE_1685_2009 .filesOnly cs)
            = mwAfter mw (passWidths .IEEE_1685_2009 .regsOnly cs
                ++ passWidths .IEEE_1685_2009 .filesOnly cs) := by
          simp [mwAfter, List.foldl_append]
        rw [this]
        exact mwAfter_perm (passWidths_perm .IEEE_1685_2009 cs).2 mw

/-- A successful `add_register` yields a `register` element. -/
theorem add_register_ok_tag (std : Standard) (mw : Option Nat) (d : RegData)
    (x : XML) (mw1 : Option Nat) (h : add_register std mw d = .ok (x, mw1)) :
    getTag x = some (nsOf std ++ "register") := by
  unfold add_register at h
  split at h
  · exact absurd h (by simp)
  · simp only [Except.ok.injEq, Prod.mk.injEq] at h
    rw [← h.1]
    rfl

/-- Everything a traversal loop emits is a register or registerFile
element. -/
theorem rdGo_tags (std : Standard) (pass : Pass) (cs : List RNode) (mw : Option Nat) :
    ∀ xs mw' ws, rdGo std pass cs mw = .ok (xs, mw', ws) →
      ∀ x ∈ xs, getTag x = some (nsOf std ++ "register")
        ∨ getTag x = some (nsOf std ++ "registerFile") := by
  induction pass, cs, mw using rdGo.induct std with
  | case1 pass mw =>
    intro xs mw' ws h
    rw [rdGo_nil] at h
    simp only [Except.ok.injEq, Prod.mk.injEq] at h
    rw [← h.1]
    intro x hx
    exact absurd hx (by simp)
  | case2 mw rest d ih =>
    intro xs mw' ws h
    rw [rdGo_cons_reg_files] at h
    exact ih _ _ _ h
  | case3 pass mw rest d hp ih =>
    intro xs mw' ws h
    rw [rdGo_cons_reg std pass mw rest d (fun he => hp he)] at h
    cases hreg : add_register std mw d with
    | error f => rw [hreg] at h; simp [Bind.bind, Except.bind] at h
    | ok p =>
      obtain ⟨x, mw1⟩ := p
      rw [hreg] at h
      simp only [Bind.bind, Except.bind] at h
      cases hrest : rdGo std pass rest mw1 with
      | error f => rw [hrest] at h; simp at h
      | ok q =>
        obtain ⟨xs2, mw2, ws2⟩ := q
        rw [hrest] at h
        simp only [pure, Except.pure, Except.ok.injEq, Prod.mk.injEq] at h
        obtain ⟨hxs, -, -⟩ := h
        rw [← hxs]
        intro y hy
        rcases List.mem_cons.mp hy with hy | hy
        · subst hy
          exact Or.inl (add_register_ok_tag std mw d y mw1 hreg)
        · exact ih mw1 _ _ _ hrest y hy
  | case4 mw rest d cs2 ih =>
    intro xs mw' ws h
    rw [rdGo_cons_regfile_regs] at h
    exact ih _ _ _ h
  | case5 pass mw rest d cs2 hp ih14 ihr ihf ihrest =>
    intro xs mw' ws h
    rw [rdGo_cons_regfile std pass mw rest d cs2 (fun he => hp he)] at h
    cases hin : add_registerData std cs2 mw with
    | error f => rw [hin] at h; simp [Bind.bind, Except.bind] at h
    | ok p =>
      obtain ⟨inner, mw1, ws1⟩ := p
      rw [hin] at h
      simp only [Bind.bind, Except.bind] at h
      cases hrest : rdGo std pass rest mw1 with
      | error f => rw [hrest] at h; simp at h
      | ok q =>
        obtain ⟨xs2, mw2, ws2⟩ := q
        rw [hrest] at h
        simp only [pure, Except.pure, Except.ok.injEq, Prod.mk.injEq] at h
        obtain ⟨hxs, -, -⟩ := h
        rw [← hxs]
        intro y hy
        rcases List.mem_cons.mp hy with hy | hy
        · subst hy
          exact Or.inr rfl
        · exact ihrest mw1 _ _ _ hrest y hy
  | case6 mw rest d cs2 ih =>
    intro xs mw' ws h
    rw [rdGo_cons_addrmap_regs] at h
    exact ih _ _ _ h
  | case7 pass mw rest d cs2 hp ih14 ihr ihf ihrest =>
    intro xs mw' ws h
    rw [rdGo_cons_addrmap std pass mw rest d cs2 (fun he => hp he)] at h
    cases hin : add_registerData std cs2 mw with
    | error f => rw [hin] at h; simp [Bind.bind, Except.bind] at h
    | ok p =>
      obtain ⟨inner, mw1, ws1⟩ := p
      rw [hin] at h
      simp only [Bind.bind, Except.bind] at h
      cases hrest : rdGo std pass rest mw1 with
      | error f => rw [hrest] at h; simp at h
      | ok q =>
        obtain ⟨xs2, mw2, ws2⟩ := q
        rw [hrest] at h
        simp only [pure, Except.pure, Except.ok.injEq, Prod.mk.injEq] at h
        obtain ⟨hxs, -, -⟩ := h
        rw [← hxs]
        intro y hy
        rcases List.mem_cons.mp hy with hy | hy
        · subst hy
          exact Or.inr rfl
        · exact ihrest mw1 _ _ _ hrest y hy
  | case8 mw rest d children ih =>
    intro xs mw' ws h
    rw [rdGo_cons_mem_regs] at h
    exact ih _ _ _ h
  | case9 pass mw rest d children hp ih =>
    intro xs mw' ws h
    rw [rdGo_cons_mem std pass mw rest d children (fun he => hp he)] at h
    cases hrest : rdGo std pass rest mw with
    | error f => rw [hrest] at h; simp [Bind.bind, Except.bind] at h
    | ok q =>
      obtain ⟨xs2, mw2, ws2⟩ := q
      rw [hrest] at h
      simp only [Bind.bind, Except.bind, pure, Except.pure, Except.ok.injEq,
        Prod.mk.injEq] at h
      obtain ⟨hxs, -, -⟩ := h
      rw [← hxs]
      exact fun y hy => ih _ _ _ hrest y hy
  | case10 pass mw rest ih =>
    intro xs mw' ws h
    rw [rdGo_cons_other] at h
    exact ih _ _ _ h

/-- Everything `add_registerData` emits is a register or registerFile
element, in either dialect. -/
theorem add_registerData_tags (std : Standard) (cs : List RNode) (mw : Option Nat)
    (xs : List XML) (mw' : Option Nat) (ws : List Message)
    (h : add_registerData std cs mw = .ok (xs, mw', ws)) :
    ∀ x ∈ xs, getTag x = some (nsOf std ++ "register")
      ∨ getTag x = some (nsOf std ++ "registerFile") := by
  cases std with
  | IEEE_1685_2014 =>
    exact rdGo_tags .IEEE_1685_2014 .interleaved cs mw xs mw' ws h
  | IEEE_1685_2009 =>
    unfold add_registerData at h
    cases hr : rdGo .IEEE_1685_2009 .regsOnly cs mw with
    | error f => rw [hr] at h; simp [Bind.bind, Except.bind] at h
    | ok pr =>
      obtain ⟨xsr, mwr, wsr⟩ := pr
      rw [hr] at h
      simp only [Bind.bind, Except.bind] at h
      cases hf : rdGo .IEEE_1685_2009 .filesOnly cs mwr with
      | error f => rw [hf] at h; simp at h
      | ok pf =>
        obtain ⟨xsf, mwf, wsf⟩ := pf
        rw [hf] at h
        simp only [pure, Except.pure, Except.ok.injEq, Prod.mk.injEq] at h
        obtain ⟨hxs, -, -⟩ := h
        rw [← hxs]
        intro x hx
        rcases List.mem_append.mp hx with hx | hx
        · exact rdGo_tags .IEEE_1685_2009 .regsOnly cs mw _ _ _ hr x hx
        · exact rdGo_tags .IEEE_1685_2009 .filesOnly cs mwr _ _ _ hf x hx

theorem countTag_zero_of_forall (t : String) (xs : List XML)
    (h : ∀ x ∈ xs, getTag x ≠ some t) : countTag t xs = 0 :=
  List.countP_eq_zero.mpr (by intro x hx; simpa using h x hx)

theorem filterTag_nil_of_forall (t : String) (xs : List XML)
    (h : ∀ x ∈ xs, getTag x ≠ some t) : filterTag t xs = [] := by
  rw [filterTag, List.filter_eq_nil_iff]
  intro x hx
  simpa using h x hx

theorem countTag_single_ne (t tag : String) (h : tag ≠ t)
    (a : List (String × String)) (ch : List XML) :
    countTag t [XML.elem tag a ch] = 0 := by
  simp [countTag, List.countP_cons, getTag, h]

theorem countTag_single_eq (t : String) (a : List (String × String)) (ch : List XML) :
    countTag t [XML.elem t a ch] = 1 := by
  simp [countTag, List.countP_cons, getTag]

theorem filterTag_single_ne (t tag : String) (h : tag ≠ t)
    (a : List (String × String)) (ch : List XML) :
    filterTag t [XML.elem tag a ch] = [] := by
  simp [filterTag, List.filter_cons, getTag, h]

theorem filterTag_single_eq (t : String) (a : List (String × String)) (ch : List XML) :
    filterTag t [XML.elem t a ch] = [XML.elem t a ch] := by
  simp [filterTag, List.filter_cons, getTag]

/-- No element of a name group carries a tag other than name,
displayName or description. -/
theorem add_nameGroup_no_tag (ns t : String) (n : String) (dn ds : Option String)
    (h1 : t ≠ "name") (h2 : t ≠ "displayName") (h3 : t ≠ "description") :
    ∀ x ∈ add_nameGroup ns n dn ds, getTag x ≠ some (ns ++ t) := by
  intro x hx
  have e1 := ns_append_ne ns (Ne.symm h1)
  have e2 := ns_append_ne ns (Ne.symm h2)
  have e3 := ns_append_ne ns (Ne.symm h3)
  cases dn <;> cases ds <;> simp [add_nameGroup, add_value] at hx <;>
    rcases hx with rfl | rfl | rfl <;> simp [getTag, e1, e2, e3]

theorem countTag_nameGroup (ns t : String) (n : String) (dn ds : Option String)
    (h1 : t ≠ "name") (h2 : t ≠ "displayName") (h3 : t ≠ "description") :
    countTag (ns ++ t) (add_nameGroup ns n dn ds) = 0 :=
  countTag_zero_of_forall _ _ (add_nameGroup_no_tag ns t n dn ds h1 h2 h3)

theorem filterTag_nameGroup (ns t : String) (n : String) (dn ds : Option String)
    (h1 : t ≠ "name") (h2 : t ≠ "displayName") (h3 : t ≠ "description") :
    filterTag (ns ++ t) (add_nameGroup ns n dn ds) = [] :=
  filterTag_nil_of_forall _ _ (add_nameGroup_no_tag ns t n dn ds h1 h2 h3)

/-- The width text resolved at the end of `add_addressBlock` from the
final accumulator value (exporter.py:306-314). -/
def widthTextOf (isMem : Bool) (d : BlockData) (mwF : Option Nat) : String :=
  match (if isMem then (match mwF with | none => some d.memwidth | some m => some m)
         else mwF) with
  | some m => toString m
  | none => "32"

/-- Inversion: a successful `add_addressBlock` comes from a successful
`add_registerData` run started with an empty accumulator, and renders the
addressBlock element shape of exporter.py:266-319. -/
theorem add_addressBlock_ok_shape (std : Standard) (isMem : Bool) (d : BlockData)
    (cs : List RNode) (x : XML) (ws : List Message)
    (h : add_addressBlock std isMem d cs = .ok (x, ws)) :
    ∃ inner mwF, add_registerData std cs none = .ok (inner, mwF, ws) ∧
      x = XML.elem (nsOf std ++ "addressBlock") []
        (add_nameGroup (nsOf std) d.inst_name d.name_p d.desc_p
          ++ (if 2014 ≤ std.toNat && !d.ispresent then
                [add_value (nsOf std ++ "isPresent") "0"] else [])
          ++ [add_value (nsOf std ++ "baseAddress") (hex_str std d.absolute_address)]
          ++ [add_value (nsOf std ++ "range") (hex_str std d.size)]
          ++ [XML.elem (nsOf std ++ "width") [] [XML.text (widthTextOf isMem d mwF)]]
          ++ (if isMem then
                [add_value (nsOf std ++ "usage") "memory",
                 add_value (nsOf std ++ "access") (access_from_sw d.sw)]
              else [])
          ++ inner) := by
  unfold add_addressBlock at h
  cases hin : add_registerData std cs none with
  | error f => rw [hin] at h; simp [Bind.bind, Except.bind] at h
  | ok p =>
    obtain ⟨inner, mwF, ws1⟩ := p
    rw [hin] at h
    simp only [Bind.bind, Except.bind, pure, Except.pure, Except.ok.injEq,
      Prod.mk.injEq] at h
    obtain ⟨hx, hws⟩ := h
    subst hws
    refine ⟨inner, mwF, rfl, ?_⟩
    exact hx.symm

/-- The width value the specification assigns to an address block: the
maximum register bit-width among all registers emitted anywhere beneath
it, else the memory's word width for a mem node, else 32. -/
def widthSpec (isMem : Bool) (d : BlockData) (cs : List RNode) : String :=
  match emittedRegWidths cs with
  | [] => if isMem then toString d.memwidth else "32"
  | w :: ws => toString (List.foldl max w ws)

theorem widthTextOf_eq_widthSpec (isMem : Bool) (d : BlockData) (cs : List RNode) :
    widthTextOf isMem d (mwAfter none (emittedRegWidths cs)) = widthSpec isMem d cs := by
  cases he : emittedRegWidths cs with
  | nil =>
    cases isMem <;> simp [widthTextOf, widthSpec, mwAfter, he]
  | cons w ws =>
    rw [widthSpec, he, mwAfter_cons_none]
    cases isMem <;> simp [widthTextOf]

theorem countTag_value_ne (t tag : String) (h : tag ≠ t) (v : String) :
    countTag t [add_value tag v] = 0 :=
  countTag_single_ne t tag h [] [XML.text v]

theorem countTag_value_eq (t v : String) : countTag t [add_value t v] = 1 :=
  countTag_single_eq t [] [XML.text v]

theorem filterTag_value_ne (t tag : String) (h : tag ≠ t) (v : String) :
    filterTag t [add_value tag v] = [] :=
  filterTag_single_ne t tag h [] [XML.text v]

theorem filterTag_value_eq (t v : String) :
    filterTag t [add_value t v] = [add_value t v] :=
  filterTag_single_eq t [] [XML.text v]

/-- Sample nodes used to instantiate the theorems at concrete inputs. -/
def wR32 : RegData :=
  { inst_name := "r32", name_p := none, desc_p := none, ispresent := true,
    raw_address_offset := 0, is_array := false, array_dimensions := [],
    array_stride := 0, regwidth := 32, fields := [] }

def wB : BlockData :=
  { inst_name := "blk", name_p := none, desc_p := none, ispresent := true,
    absolute_address := 0, raw_address_offset := 0, size := 4,
    is_array := false, array_dimensions := [], array_stride := 0,
    memwidth := 64, sw := .rw, bridge := false }

/-- C1: every rendered address block carries exactly one width element,
resolved after its subtree is rendered, whose value is the maximum
regwidth over all registers emitted anywhere beneath the block, else the
node's memwidth when the node is a raw memory, else 32.  The accumulator
is restarted from `none` inside `add_addressBlock` itself, and
`widthSpec` depends only on this block's own subtree, so sibling blocks'
widths are independent. -/
theorem C1_addressBlock_width (std : Standard) (isMem : Bool) (d : BlockData)
    (cs : List RNode) (x : XML) (ws : List Message)
    (h : add_addressBlock std isMem d cs = .ok (x, ws)) :
    getTag x = some (nsOf std ++ "addressBlock") ∧
      countTag (nsOf std ++ "width") x.childrenOf = 1 ∧
      filterTag (nsOf std ++ "width") x.childrenOf
        = [XML.elem (nsOf std ++ "width") [] [XML.text (widthSpec isMem d cs)]] := by
  obtain ⟨inner, mwF, hin, hx⟩ := add_addressBlock_ok_shape std isMem d cs x ws h
  have hmw := add_registerData_mw std cs none inner mwF ws hin
  have htags := add_registerData_tags std cs none inner mwF ws hin
  have hwidthtext : widthTextOf isMem d mwF = widthSpec isMem d cs := by
    rw [hmw]; exact widthTextOf_eq_widthSpec isMem d cs
  subst hx
  rw [hwidthtext]
  have hinner : ∀ y ∈ inner, getTag y ≠ some (nsOf std ++ "width") := by
    intro y hy
    rcases htags y hy with hh | hh <;> rw [hh] <;> intro he <;>
      exact ns_append_ne (nsOf std) (by decide) (Option.some.inj he)
  have cip : countTag (nsOf std ++ "width")
      (if 2014 ≤ std.toNat && !d.ispresent then
        [add_value (nsOf std ++ "isPresent") "0"] else []) = 0 := by
    split
    · exact countTag_value_ne _ _ (ns_append_ne (nsOf std) (by decide)) _
    · rfl
  have fip : filterTag (nsOf std ++ "width")
      (if 2014 ≤ std.toNat && !d.ispresent then
        [add_value (nsOf std ++ "isPresent") "0"] else []) = [] := by
    split
    · exact filterTag_value_ne _ _ (ns_append_ne (nsOf std) (by decide)) _
    · rfl
  have cmem : countTag (nsOf std ++ "width")
      (if isMem then
        [add_value (nsOf std ++ "usage") "memory",
         add_value (nsOf std ++ "access") (access_from_sw d.sw)] else []) = 0 := by
    split
    · simp [countTag, List.countP_cons, add_value, getTag,
        ns_append_ne (nsOf std) (show "usage" ≠ "width" by decide),
        ns_append_ne (nsOf std) (show "access" ≠ "width" by decide)]
    · rfl
  have fmem : filterTag (nsOf std ++ "width")
      (if isMem then
        [add_value (nsOf std ++ "usage") "memory",
         add_value (nsOf std ++ "access") (access_from_sw d.sw)] else []) = [] := by
    split
    · simp [filterTag, List.filter_cons, add_value, getTag,
        ns_append_ne (nsOf std) (show "usage" ≠ "width" by decide),
        ns_append_ne (nsOf std) (show "access" ≠ "width" by decide)]
    · rfl
  refine ⟨rfl, ?_, ?_⟩
  · simp only [XML.childrenOf, countTag_append]
    rw [countTag_nameGroup (nsOf std) "width" _ _ _ (by decide) (by decide) (by decide),
      cip,
      countTag_value_ne _ _ (ns_append_ne (nsOf std) (by decide)) _,
      countTag_value_ne _ _ (ns_append_ne (nsOf std) (by decide)) _,
      countTag_single_eq,
      cmem,
      countTag_zero_of_forall _ _ hinner]
  · simp only [XML.childrenOf, filterTag_append]
    rw [filterTag_nameGroup (nsOf std) "width" _ _ _ (by decide) (by decide) (by decide),
      fip,
      filterTag_value_ne _ _ (ns_append_ne (nsOf std) (by decide)) _,
      filterTag_value_ne _ _ (ns_append_ne (nsOf std) (by decide)) _,
      filterTag_single_eq,
      fmem,
      filterTag_nil_of_forall _ _ hinner]
    simp

theorem C1_addressBlock_width_witness :
    ∃ x ws, add_addressBlock .IEEE_1685_2014 false wB [.reg wR32] = .ok (x, ws) ∧
      (getTag x = some (nsOf .IEEE_1685_2014 ++ "addressBlock") ∧
        countTag (nsOf .IEEE_1685_2014 ++ "width") x.childrenOf = 1 ∧
        filterTag (nsOf .IEEE_1685_2014 ++ "width") x.childrenOf
          = [XML.elem (nsOf .IEEE_1685_2014 ++ "width") []
              [XML.text (widthSpec false wB [.reg wR32])]]) := by
  have hok : ∃ r, add_addressBlock .IEEE_1685_2014 false wB [.reg wR32] = .ok r := by
    simp [add_addressBlock, add_registerData, rdGo, add_register, wB, wR32,
      Bind.bind, Except.bind, pure, Except.pure]
  obtain ⟨⟨x, ws⟩, hr⟩ := hok
  exact ⟨x, ws, hr, C1_addressBlock_width .IEEE_1685_2014 false wB [.reg wR32] x ws hr⟩

/-- An arrayed register whose stride differs from its byte size makes
`add_register` fatal (exporter.py:373-378). -/
theorem add_register_stride_error (std : Standard) (mw : Option Nat) (d : RegData)
    (h1 : d.is_array = true) (h2 : (d.array_stride : ℚ) ≠ (d.regwidth : ℚ) / 8) :
    add_register std mw d = .error (.regArrayStride d.inst_name) := by
  unfold add_register
  rw [h1]
  simp [h2]

/-- Sample arrayed registers: per-element byte size 4 (regwidth 32) with
stride 8 (bad) and stride 4 (good). -/
def wRbad : RegData :=
  { inst_name := "arr", name_p := none, desc_p := none, ispresent := true,
    raw_address_offset := 0, is_array := true, array_dimensions := [4],
    array_stride := 8, regwidth := 32, fields := [] }

def wRgood : RegData :=
  { inst_name := "arr", name_p := none, desc_p := none, ispresent := true,
    raw_address_offset := 0, is_array := true, array_dimensions := [4],
    array_stride := 4, regwidth := 32, fields := [] }

/-- C4: an arrayed register whose stride differs from regwidth/8 bytes is
fatal, aborting the whole export (no output document is returned); an
arrayed register whose stride matches renders successfully with one dim
element per array dimension, in order. -/
theorem C4_register_array_stride (std : Standard) (mw : Option Nat) (d : RegData) :
    (d.is_array = true → (d.array_stride : ℚ) ≠ (d.regwidth : ℚ) / 8 →
      add_register std mw d = .error (.regArrayStride d.inst_name))
    ∧ (d.is_array = true → (d.array_stride : ℚ) = (d.regwidth : ℚ) / 8 →
      ∃ x mw', add_register std mw d = .ok (x, mw') ∧
        filterTag (nsOf std ++ "dim") x.childrenOf
          = d.array_dimensions.map (fun dim => add_value (nsOf std ++ "dim") (toString dim)))
    ∧ (∀ cfg topd cn, d.is_array = true → (d.array_stride : ℚ) ≠ (d.regwidth : ℚ) / 8 →
      export_ cfg (.node (.addrmap topd [.reg d])) cn []
        = .error (.fatal (.regArrayStride d.inst_name))) := by
  refine ⟨add_register_stride_error std mw d, ?_, ?_⟩
  · intro h1 h2
    have hc : (d.is_array && decide ((d.array_stride : ℚ) ≠ (d.regwidth : ℚ) / 8)) = false := by
      rw [h1]; simp [h2]
    unfold add_register
    rw [hc]
    simp only [Bool.false_eq_true, if_false]
    refine ⟨_, _, rfl, ?_⟩
    simp only [XML.childrenOf, filterTag_append]
    rw [filterTag_nameGroup (nsOf std) "dim" _ _ _ (by decide) (by decide) (by decide)]
    have fip : filterTag (nsOf std ++ "dim")
        (if 2014 ≤ std.toNat && !d.ispresent then
          [add_value (nsOf std ++ "isPresent") "0"] else []) = [] := by
      split
      · exact filterTag_value_ne _ _ (ns_append_ne (nsOf std) (by decide)) _
      · rfl
    rw [fip, h1]
    have fdims : filterTag (nsOf std ++ "dim")
        (d.array_dimensions.map (fun dim => add_value (nsOf std ++ "dim") (toString dim)))
        = d.array_dimensions.map (fun dim => add_value (nsOf std ++ "dim") (toString dim)) := by
      rw [filterTag, List.filter_eq_self]
      intro y hy
      obtain ⟨n, -, rfl⟩ := List.mem_map.mp hy
      simp [add_value, getTag]
    rw [if_pos rfl, fdims,
      filterTag_value_ne _ _ (ns_append_ne (nsOf std) (by decide)) _,
      filterTag_value_ne _ _ (ns_append_ne (nsOf std) (by decide)) _]
    have frst : filterTag (nsOf std ++ "dim")
        (if std.toNat ≤ 2009 then
          if (reg_reset_fold d.fields).2 ≠ 0 then
            [XML.elem (nsOf std ++ "reset") []
              [add_value (nsOf std ++ "value") (hex_str std (reg_reset_fold d.fields).1),
               add_value (nsOf std ++ "mask") (hex_str std (reg_reset_fold d.fields).2)]]
          else []
        else []) = [] := by
      split
      · split
        · exact filterTag_single_ne _ _ (ns_append_ne (nsOf std) (by decide)) _ _
        · rfl
      · rfl
    rw [frst]
    have ffld : filterTag (nsOf std ++ "dim") (d.fields.map (add_field std)) = [] := by
      apply filterTag_nil_of_forall
      intro y hy
      obtain ⟨f, -, rfl⟩ := List.mem_map.mp hy
      intro he
      exact ns_append_ne (nsOf std) (show "field" ≠ "dim" by decide) (Option.some.inj he)
    rw [ffld]
    simp
  · intro cfg topd cn h1 h2
    have hrd : add_registerData cfg.standard [.reg d] none
        = .error (.regArrayStride d.inst_name) := by
      cases cfg.standard with
      | IEEE_1685_2014 =>
        show rdGo _ .interleaved _ _ = _
        rw [rdGo_cons_reg _ _ _ _ _ (by decide),
          add_register_stride_error _ none d h1 h2]
        rfl
      | IEEE_1685_2009 =>
        show (do
          let (xs1, mwa, wsa) ← rdGo _ .regsOnly [RNode.reg d] none
          let (xs2, mwb, wsb) ← rdGo _ .filesOnly [RNode.reg d] mwa
          pure (xs1 ++ xs2, mwb, wsa ++ wsb) : Except Fatal _) = _
        rw [rdGo_cons_reg _ _ _ _ _ (by decide),
          add_register_stride_error _ none d h1 h2]
        rfl
    have hab : add_addressBlock cfg.standard false topd [.reg d]
        = .error (.regArrayStride d.inst_name) := by
      unfold add_addressBlock
      rw [hrd]
      rfl
    have hbd : buildDoc cfg cn false topd [.reg d]
        = .error (.regArrayStride d.inst_name) := by
      unfold buildDoc
      have hexp : explode_decision [RNode.reg d] = false := rfl
      rw [hexp]
      simp only [Bool.and_false, Bool.false_and, if_neg]
      rw [hab]
      rfl
    unfold export_
    simp only [ExportArg.resolve, List.filter_nil, List.isEmpty_nil, Bool.not_true,
      Bool.false_eq_true, if_false, hbd]

theorem C4_register_array_stride_witness :
    add_register .IEEE_1685_2014 none wRbad = .error (.regArrayStride "arr") ∧
    (∃ x mw', add_register .IEEE_1685_2014 none wRgood = .ok (x, mw') ∧
      filterTag (nsOf .IEEE_1685_2014 ++ "dim") x.childrenOf
        = wRgood.array_dimensions.map
            (fun dim => add_value (nsOf .IEEE_1685_2014 ++ "dim") (toString dim))) ∧
    export_ defaultCfg (.node (.addrmap wB [.reg wRbad])) none []
      = .error (.fatal (.regArrayStride "arr")) := by
  refine ⟨?_, ?_, ?_⟩
  · exact (C4_register_array_stride .IEEE_1685_2014 none wRbad).1 rfl (by norm_num [wRbad])
  · exact (C4_register_array_stride .IEEE_1685_2014 none wRgood).2.1 rfl (by norm_num [wRgood])
  · exact (C4_register_array_stride .IEEE_1685_2014 none wRbad).2.2 defaultCfg wB none rfl
      (by norm_num [wRbad])

/-- Inversion: a successful `add_registerFile` comes from a successful
`add_registerData` on the node's children and renders the registerFile
element shape of exporter.py:322-357. -/
theorem add_registerFile_ok_shape (std : Standard) (d : BlockData) (cs : List RNode)
    (mw : Option Nat) (x : XML) (mw' : Option Nat) (ws : List Message)
    (h : add_registerFile std d cs mw = .ok (x, mw', ws)) :
    ∃ inner, add_registerData std cs mw = .ok (inner, mw', ws) ∧
      x = XML.elem (nsOf std ++ "registerFile") [] (registerFileHead std d ++ inner) := by
  unfold add_registerFile at h
  cases hin : add_registerData std cs mw with
  | error f => rw [hin] at h; simp [Bind.bind, Except.bind] at h
  | ok p =>
    obtain ⟨inner, mw1, ws1⟩ := p
    rw [hin] at h
    simp only [Bind.bind, Except.bind, pure, Except.pure, Except.ok.injEq,
      Prod.mk.injEq] at h
    obtain ⟨hx, hmw, hws⟩ := h
    subst hmw
    subst hws
    exact ⟨inner, rfl, hx.symm⟩

/-- C5: a container with direct children [register A, sub-group B,
register C] renders interleaved in source order [A, B, C] under 2014,
and registers-first [A, C, B] under 2009. -/
theorem C5_child_ordering (a c : RegData) (b : BlockData) (bcs : List RNode) :
    (∀ mw xa mw1 xb mw2 wsb xc mw3,
      add_register .IEEE_1685_2014 mw a = .ok (xa, mw1) →
      add_registerFile .IEEE_1685_2014 b bcs mw1 = .ok (xb, mw2, wsb) →
      add_register .IEEE_1685_2014 mw2 c = .ok (xc, mw3) →
      add_registerData .IEEE_1685_2014 [.reg a, .regfile b bcs, .reg c] mw
        = .ok ([xa, xb, xc], mw3, wsb))
    ∧ (∀ mw xa mw1 xc mw2 xb mw3 wsb,
      add_register .IEEE_1685_2009 mw a = .ok (xa, mw1) →
      add_register .IEEE_1685_2009 mw1 c = .ok (xc, mw2) →
      add_registerFile .IEEE_1685_2009 b bcs mw2 = .ok (xb, mw3, wsb) →
      add_registerData .IEEE_1685_2009 [.reg a, .regfile b bcs, .reg c] mw
        = .ok ([xa, xc, xb], mw3, wsb)) := by
  constructor
  · intro mw xa mw1 xb mw2 wsb xc mw3 ha hb hc
    obtain ⟨inner, hbd, hxb⟩ := add_registerFile_ok_shape _ _ _ _ _ _ _ hb
    show rdGo .IEEE_1685_2014 .interleaved [.reg a, .regfile b bcs, .reg c] mw
      = .ok ([xa, xb, xc], mw3, wsb)
    rw [rdGo_cons_reg _ _ _ _ _ (by decide), ha]
    simp only [Bind.bind, Except.bind]
    rw [rdGo_cons_regfile _ _ _ _ _ _ (by decide), hbd]
    simp only [Bind.bind, Except.bind]
    rw [rdGo_cons_reg _ _ _ _ _ (by decide), hc]
    simp only [Bind.bind, Except.bind]
    rw [rdGo_nil]
    simp only [pure, Except.pure]
    rw [← hxb]
    simp
  · intro mw xa mw1 xc mw2 xb mw3 wsb ha hc hb
    obtain ⟨inner, hbd, hxb⟩ := add_registerFile_ok_shape _ _ _ _ _ _ _ hb
    show (do
      let (xs1, mwa, wsa) ← rdGo .IEEE_1685_2009 .regsOnly [.reg a, .regfile b bcs, .reg c] mw
      let (xs2, mwb, wsb2) ← rdGo .IEEE_1685_2009 .filesOnly [.reg a, .regfile b bcs, .reg c] mwa
      pure (xs1 ++ xs2, mwb, wsa ++ wsb2) : Except Fatal _)
      = .ok ([xa, xc, xb], mw3, wsb)
    rw [rdGo_cons_reg _ _ _ _ _ (by decide), ha]
    simp only [Bind.bind, Except.bind]
    rw [rdGo_cons_regfile_regs]
    rw [rdGo_cons_reg _ _ _ _ _ (by decide), hc]
    simp only [Bind.bind, Except.bind]
    rw [rdGo_nil]
    simp only [pure, Except.pure]
    rw [rdGo_cons_reg_files]
    rw [rdGo_cons_regfile _ _ _ _ _ _ (by decide), hbd]
    simp only [Bind.bind, Except.bind]
    rw [rdGo_cons_reg_files, rdGo_nil]
    simp only [pure, Except.pure]
    rw [← hxb]
    simp

/-- Distinctly-named registers for the ordering example. -/
def wRa : RegData :=
  { inst_name := "A", name_p := none, desc_p := none, ispresent := true,
    raw_address_offset := 0, is_array := false, array_dimensions := [],
    array_stride := 0, regwidth := 32, fields := [] }

def wRc : RegData :=
  { inst_name := "C", name_p := none, desc_p := none, ispresent := true,
    raw_address_offset := 8, is_array := false, array_dimensions := [],
    array_stride := 0, regwidth := 32, fields := [] }

theorem C5_child_ordering_witness :
    (∃ xa mw1 xb mw2 wsb xc mw3,
      add_register .IEEE_1685_2014 none wRa = .ok (xa, mw1) ∧
      add_registerFile .IEEE_1685_2014 wB [] mw1 = .ok (xb, mw2, wsb) ∧
      add_register .IEEE_1685_2014 mw2 wRc = .ok (xc, mw3) ∧
      add_registerData .IEEE_1685_2014 [.reg wRa, .regfile wB [], .reg wRc] none
        = .ok ([xa, xb, xc], mw3, wsb)) ∧
    (∃ xa mw1 xc mw2 xb mw3 wsb,
      add_register .IEEE_1685_2009 none wRa = .ok (xa, mw1) ∧
      add_register .IEEE_1685_2009 mw1 wRc = .ok (xc, mw2) ∧
      add_registerFile .IEEE_1685_2009 wB [] mw2 = .ok (xb, mw3, wsb) ∧
      add_registerData .IEEE_1685_2009 [.reg wRa, .regfile wB [], .reg wRc] none
        = .ok ([xa, xc, xb], mw3, wsb)) := by
  constructor
  · obtain ⟨⟨xa, mw1⟩, ha⟩ : ∃ r, add_register .IEEE_1685_2014 none wRa = .ok r := ⟨_, rfl⟩
    obtain ⟨⟨xb, mw2, wsb⟩, hb⟩ :
        ∃ r, add_registerFile .IEEE_1685_2014 wB [] mw1 = .ok r := by
      simp [add_registerFile, add_registerData, rdGo, Bind.bind, Except.bind,
        pure, Except.pure]
    obtain ⟨⟨xc, mw3⟩, hc⟩ : ∃ r, add_register .IEEE_1685_2014 mw2 wRc = .ok r := ⟨_, rfl⟩
    exact ⟨xa, mw1, xb, mw2, wsb, xc, mw3, ha, hb, hc,
      (C5_child_ordering wRa wRc wB []).1 none xa mw1 xb mw2 wsb xc mw3 ha hb hc⟩
  · obtain ⟨⟨xa, mw1⟩, ha⟩ : ∃ r, add_register .IEEE_1685_2009 none wRa = .ok r := ⟨_, rfl⟩
    obtain ⟨⟨xc, mw2⟩, hc⟩ : ∃ r, add_register .IEEE_1685_2009 mw1 wRc = .ok r := ⟨_, rfl⟩
    obtain ⟨⟨xb, mw3, wsb⟩, hb⟩ :
        ∃ r, add_registerFile .IEEE_1685_2009 wB [] mw2 = .ok r := by
      simp [add_registerFile, add_registerData, rdGo, Bind.bind, Except.bind,
        pure, Except.pure]
    exact ⟨xa, mw1, xc, mw2, xb, mw3, wsb, ha, hc, hb,
      (C5_child_ordering wRa wRc wB []).2 none xa mw1 xc mw2 xb mw3 wsb ha hc hb⟩

/-- Tag census of a rendered field's direct children: apart from the
fixed-tag members, only the optional isPresent marker and the optional
2014 resets element can carry the tag `ns ++ t`. -/
theorem countTag_add_field (std : Standard) (f : FieldData) (t : String)
    (h1 : t ≠ "name") (h2 : t ≠ "displayName") (h3 : t ≠ "description")
    (h4 : t ≠ "bitOffset") (h5 : t ≠ "bitWidth") (h6 : t ≠ "volatile")
    (h7 : t ≠ "access") (h8 : t ≠ "enumeratedValues") (h9 : t ≠ "modifiedWriteValue")
    (h10 : t ≠ "readAction") (h11 : t ≠ "testable") :
    countTag (nsOf std ++ t) (add_field std f).childrenOf
      = (if t = "isPresent" then
          (if 2014 ≤ std.toNat && !f.ispresent then 1 else 0) else 0)
        + (if t = "resets" then
            (if 2014 ≤ std.toNat then (if f.reset.isSome then 1 else 0) else 0)
          else 0) := by
  simp only [add_field, XML.childrenOf, countTag_append]
  rw [countTag_nameGroup (nsOf std) t _ _ _ h1 h2 h3]
  have cip : countTag (nsOf std ++ t)
      (if 2014 ≤ std.toNat && !f.ispresent then
        [add_value (nsOf std ++ "isPresent") "0"] else [])
      = (if t = "isPresent" then (if 2014 ≤ std.toNat && !f.ispresent then 1 else 0) else 0) := by
    by_cases ht : t = "isPresent"
    · subst ht
      rw [if_pos rfl]
      split
      · exact countTag_value_eq _ _
      · rfl
    · rw [if_neg ht]
      split
      · exact countTag_value_ne _ _ (ns_append_ne (nsOf std) (Ne.symm ht)) _
      · rfl
  rw [cip]
  have crst : countTag (nsOf std ++ t)
      (if 2014 ≤ std.toNat then
        match f.reset with
        | some r =>
          [XML.elem (nsOf std ++ "resets") []
            [XML.elem (nsOf std ++ "reset") [] [add_value (nsOf std ++ "value") (hex_str std r)]]]
        | none => []
      else [])
      = (if t = "resets" then
          (if 2014 ≤ std.toNat then (if f.reset.isSome then 1 else 0) else 0) else 0) := by
    by_cases ht : t = "resets"
    · subst ht
      rw [if_pos rfl]
      split
      · cases f.reset with
        | some r => simp [countTag_single_eq]
        | none => rfl
      · rfl
    · rw [if_neg ht]
      split
      · cases f.reset with
        | some r => exact countTag_single_ne _ _ (ns_append_ne (nsOf std) (Ne.symm ht)) _ _
        | none => rfl
      · rfl
  rw [crst]
  rw [countTag_value_ne _ _ (ns_append_ne (nsOf std) (Ne.symm h4)) _,
    countTag_value_ne _ _ (ns_append_ne (nsOf std) (Ne.symm h5)) _]
  have cvol : countTag (nsOf std ++ t)
      (if f.is_volatile then [add_value (nsOf std ++ "volatile") "true"] else []) = 0 := by
    split
    · exact countTag_value_ne _ _ (ns_append_ne (nsOf std) (Ne.symm h6)) _
    · rfl
  rw [cvol, countTag_value_ne _ _ (ns_append_ne (nsOf std) (Ne.symm h7)) _]
  have cenc : countTag (nsOf std ++ t)
      (match f.encode with
       | some evs =>
         [XML.elem (nsOf std ++ "enumeratedValues") []
           (evs.map (fun ev =>
             XML.elem (nsOf std ++ "enumeratedValue") []
               (add_nameGroup (nsOf std) ev.name ev.rdl_name ev.rdl_desc
                 ++ [add_value (nsOf std ++ "value") (hex_str std ev.value)])))]
       | none => []) = 0 := by
    cases f.encode with
    | some evs => exact countTag_single_ne _ _ (ns_append_ne (nsOf std) (Ne.symm h8)) _ _
    | none => rfl
  rw [cenc]
  have cow : countTag (nsOf std ++ t)
      (match f.onwrite with
       | some ow => [add_value (nsOf std ++ "modifiedWriteValue") (mwv_from_onwrite ow)]
       | none => []) = 0 := by
    cases f.onwrite with
    | some ow => exact countTag_value_ne _ _ (ns_append_ne (nsOf std) (Ne.symm h9)) _
    | none => rfl
  rw [cow]
  have cor : countTag (nsOf std ++ t)
      (match f.onread with
       | some orv => [add_value (nsOf std ++ "readAction") (readaction_from_onread orv)]
       | none => []) = 0 := by
    cases f.onread with
    | some orv => exact countTag_value_ne _ _ (ns_append_ne (nsOf std) (Ne.symm h10)) _
    | none => rfl
  rw [cor]
  have cdt : countTag (nsOf std ++ t)
      (if f.donttest then [add_value (nsOf std ++ "testable") "false"] else []) = 0 := by
    split
    · exact countTag_value_ne _ _ (ns_append_ne (nsOf std) (Ne.symm h11)) _
    · rfl
  rw [cdt]
  omega

/-- Filter census of a rendered field's direct children, analogous to
`countTag_add_field`. -/
theorem filterTag_add_field (std : Standard) (f : FieldData) (t : String)
    (h1 : t ≠ "name") (h2 : t ≠ "displayName") (h3 : t ≠ "description")
    (h4 : t ≠ "bitOffset") (h5 : t ≠ "bitWidth") (h6 : t ≠ "volatile")
    (h7 : t ≠ "access") (h8 : t ≠ "enumeratedValues") (h9 : t ≠ "modifiedWriteValue")
    (h10 : t ≠ "readAction") (h11 : t ≠ "testable") :
    filterTag (nsOf std ++ t) (add_field std f).childrenOf
      = (if t = "isPresent" then
          (if 2014 ≤ std.toNat && !f.ispresent then
            [add_value (nsOf std ++ "isPresent") "0"] else []) else [])
        ++ (if t = "resets" then
            (if 2014 ≤ std.toNat then
              match f.reset with
              | some r =>
                [XML.elem (nsOf std ++ "resets") []
                  [XML.elem (nsOf std ++ "reset") []
                    [add_value (nsOf std ++ "value") (hex_str std r)]]]
              | none => []
            else [])
          else []) := by
  simp only [add_field, XML.childrenOf, filterTag_append]
  rw [filterTag_nameGroup (nsOf std) t _ _ _ h1 h2 h3]
  have fip : filterTag (nsOf std ++ t)
      (if 2014 ≤ std.toNat && !f.ispresent then
        [add_value (nsOf std ++ "isPresent") "0"] else [])
      = (if t = "isPresent" then
          (if 2014 ≤ std.toNat && !f.ispresent then
            [add_value (nsOf std ++ "isPresent") "0"] else []) else []) := by
    by_cases ht : t = "isPresent"
    · subst ht
      rw [if_pos rfl]
      split
      · exact filterTag_single_eq _ _ _
      · rfl
    · rw [if_neg ht]
      split
      · exact filterTag_value_ne _ _ (ns_append_ne (nsOf std) (Ne.symm ht)) _
      · rfl
  rw [fip]
  have frst : filterTag (nsOf std ++ t)
      (if 2014 ≤ std.toNat then
        match f.reset with
        | some r =>
          [XML.elem (nsOf std ++ "resets") []
            [XML.elem (nsOf std ++ "reset") [] [add_value (nsOf std ++ "value") (hex_str std r)]]]
        | none => []
      else [])
      = (if t = "resets" then
          (if 2014 ≤ std.toNat then
            match f.reset with
            | some r =>
              [XML.elem (nsOf std ++ "resets") []
                [XML.elem (nsOf std ++ "reset") []
                  [add_value (nsOf std ++ "value") (hex_str std r)]]]
            | none => []
          else [])
        else []) := by
    by_cases ht : t = "resets"
    · subst ht
      rw [if_pos rfl]
      split
      · cases f.reset with
        | some r => exact filterTag_single_eq _ _ _
        | none => rfl
      · rfl
    · rw [if_neg ht]
      split
      · cases f.reset with
        | some r => exact filterTag_single_ne _ _ (ns_append_ne (nsOf std) (Ne.symm ht)) _ _
        | none => rfl
      · rfl
  rw [frst]
  rw [filterTag_value_ne _ _ (ns_append_ne (nsOf std) (Ne.symm h4)) _,
    filterTag_value_ne _ _ (ns_append_ne (nsOf std) (Ne.symm h5)) _]
  have fvol : filterTag (nsOf std ++ t)
      (if f.is_volatile then [add_value (nsOf std ++ "volatile") "true"] else []) = [] := by
    split
    · exact filterTag_value_ne _ _ (ns_append_ne (nsOf std) (Ne.symm h6)) _
    · rfl
  rw [fvol, filterTag_value_ne _ _ (ns_append_ne (nsOf std) (Ne.symm h7)) _]
  have fenc : filterTag (nsOf std ++ t)
      (match f.encode with
       | some evs =>
         [XML.elem (nsOf std ++ "enumeratedValues") []
           (evs.map (fun ev =>
             XML.elem (nsOf std ++ "enumeratedValue") []
               (add_nameGroup (nsOf std) ev.name ev.rdl_name ev.rdl_desc
                 ++ [add_value (nsOf std ++ "value") (hex_str std ev.value)])))]
       | none => []) = [] := by
    cases f.encode with
    | some evs => exact filterTag_single_ne _ _ (ns_append_ne (nsOf std) (Ne.symm h8)) _ _
    | none => rfl
  rw [fenc]
  have fow : filterTag (nsOf std ++ t)
      (match f.onwrite with
       | some ow => [add_value (nsOf std ++ "modifiedWriteValue") (mwv_from_onwrite ow)]
       | none => []) = [] := by
    cases f.onwrite with
    | some ow => exact filterTag_value_ne _ _ (ns_append_ne (nsOf std) (Ne.symm h9)) _
    | none => rfl
  rw [fow]
  have forv : filterTag (nsOf std ++ t)
      (match f.onread with
       | some orv => [add_value (nsOf std ++ "readAction") (readaction_from_onread orv)]
       | none => []) = [] := by
    cases f.onread with
    | some orv => exact filterTag_value_ne _ _ (ns_append_ne (nsOf std) (Ne.symm h10)) _
    | none => rfl
  rw [forv]
  have fdt : filterTag (nsOf std ++ t)
      (if f.donttest then [add_value (nsOf std ++ "testable") "false"] else []) = [] := by
    split
    · exact filterTag_value_ne _ _ (ns_append_ne (nsOf std) (Ne.symm h11)) _
    · rfl
  rw [fdt]
  simp

/-- Inversion: a successful `add_register` renders the register element
shape of exporter.py:360-422. -/
theorem add_register_ok_shape (std : Standard) (mw : Option Nat) (d : RegData)
    (x : XML) (mw' : Option Nat) (h : add_register std mw d = .ok (x, mw')) :
    x = XML.elem (nsOf std ++ "register") []
      (add_nameGroup (nsOf std) d.inst_name d.name_p d.desc_p
        ++ (if 2014 ≤ std.toNat && !d.ispresent then
              [add_value (nsOf std ++ "isPresent") "0"] else [])
        ++ (if d.is_array then
              d.array_dimensions.map (fun dim => add_value (nsOf std ++ "dim") (toString dim))
            else [])
        ++ [add_value (nsOf std ++ "addressOffset") (hex_str std d.raw_address_offset)]
        ++ [add_value (nsOf std ++ "size") (toString d.regwidth)]
        ++ (if std.toNat ≤ 2009 then
              if (reg_reset_fold d.fields).2 ≠ 0 then
                [XML.elem (nsOf std ++ "reset") []
                  [add_value (nsOf std ++ "value") (hex_str std (reg_reset_fold d.fields).1),
                   add_value (nsOf std ++ "mask") (hex_str std (reg_reset_fold d.fields).2)]]
              else []
            else [])
        ++ d.fields.map (add_field std)) := by
  unfold add_register at h
  split at h
  · exact absurd h (by simp)
  · simp only [Except.ok.injEq, Prod.mk.injEq] at h
    exact h.1.symm

/-- Tag census of a rendered register's direct children. -/
theorem countTag_add_register (std : Standard) (mw : Option Nat) (d : RegData)
    (x : XML) (mw' : Option Nat) (h : add_register std mw d = .ok (x, mw'))
    (t : String)
    (h1 : t ≠ "name") (h2 : t ≠ "displayName") (h3 : t ≠ "description")
    (h4 : t ≠ "dim") (h5 : t ≠ "addressOffset") (h6 : t ≠ "size") (h7 : t ≠ "field") :
    countTag (nsOf std ++ t) x.childrenOf
      = (if t = "isPresent" then
          (if 2014 ≤ std.toNat && !d.ispresent then 1 else 0) else 0)
        + (if t = "reset" then
            (if std.toNat ≤ 2009 then
              (if (reg_reset_fold d.fields).2 ≠ 0 then 1 else 0) else 0)
          else 0) := by
  rw [add_register_ok_shape std mw d x mw' h]
  simp only [XML.childrenOf, countTag_append]
  rw [countTag_nameGroup (nsOf std) t _ _ _ h1 h2 h3]
  have cip : countTag (nsOf std ++ t)
      (if 2014 ≤ std.toNat && !d.ispresent then
        [add_value (nsOf std ++ "isPresent") "0"] else [])
      = (if t = "isPresent" then (if 2014 ≤ std.toNat && !d.ispresent then 1 else 0) else 0) := by
    by_cases ht : t = "isPresent"
    · subst ht
      rw [if_pos rfl]
      split
      · exact countTag_value_eq _ _
      · rfl
    · rw [if_neg ht]
      split
      · exact countTag_value_ne _ _ (ns_append_ne (nsOf std) (Ne.symm ht)) _
      · rfl
  rw [cip]
  have cdim : countTag (nsOf std ++ t)
      (if d.is_array then
        d.array_dimensions.map (fun dim => add_value (nsOf std ++ "dim") (toString dim))
      else []) = 0 := by
    split
    · apply countTag_zero_of_forall
      intro y hy
      obtain ⟨n, -, rfl⟩ := List.mem_map.mp hy
      intro he
      exact ns_append_ne (nsOf std) (Ne.symm h4) (Option.some.inj he)
    · rfl
  rw [cdim,
    countTag_value_ne _ _ (ns_append_ne (nsOf std) (Ne.symm h5)) _,
    countTag_value_ne _ _ (ns_append_ne (nsOf std) (Ne.symm h6)) _]
  have crst : countTag (nsOf std ++ t)
      (if std.toNat ≤ 2009 then
        if (reg_reset_fold d.fields).2 ≠ 0 then
          [XML.elem (nsOf std ++ "reset") []
            [add_value (nsOf std ++ "value") (hex_str std (reg_reset_fold d.fields).1),
             add_value (nsOf std ++ "mask") (hex_str std (reg_reset_fold d.fields).2)]]
        else []
      else [])
      = (if t = "reset" then
          (if std.toNat ≤ 2009 then
            (if (reg_reset_fold d.fields).2 ≠ 0 then 1 else 0) else 0)
        else 0) := by
    by_cases ht : t = "reset"
    · subst ht
      rw [if_pos rfl]
      split
      · split
        · exact countTag_single_eq _ _ _
        · rfl
      · rfl
    · rw [if_neg ht]
      split
      · split
        · exact countTag_single_ne _ _ (ns_append_ne (nsOf std) (Ne.symm ht)) _ _
        · rfl
      · rfl
  rw [crst]
  have cfld : countTag (nsOf std ++ t) (d.fields.map (add_field std)) = 0 := by
    apply countTag_zero_of_forall
    intro y hy
    obtain ⟨f, -, rfl⟩ := List.mem_map.mp hy
    intro he
    exact ns_append_ne (nsOf std) (Ne.symm h7) (Option.some.inj he)
  rw [cfld]
  omega

/-- Filter census of a rendered register's direct children. -/
theorem filterTag_add_register (std : Standard) (mw : Option Nat) (d : RegData)
    (x : XML) (mw' : Option Nat) (h : add_register std mw d = .ok (x, mw'))
    (t : String)
    (h1 : t ≠ "name") (h2 : t ≠ "displayName") (h3 : t ≠ "description")
    (h4 : t ≠ "dim") (h5 : t ≠ "addressOffset") (h6 : t ≠ "size") (h7 : t ≠ "field")
    (h8 : t ≠ "isPresent") :
    filterTag (nsOf std ++ t) x.childrenOf
      = (if t = "reset" then
          (if std.toNat ≤ 2009 then
            (if (reg_reset_fold d.fields).2 ≠ 0 then
              [XML.elem (nsOf std ++ "reset") []
                [add_value (nsOf std ++ "value") (hex_str std (reg_reset_fold d.fields).1),
                 add_value (nsOf std ++ "mask") (hex_str std (reg_reset_fold d.fields).2)]]
            else []) else [])
        else []) := by
  rw [add_register_ok_shape std mw d x mw' h]
  simp only [XML.childrenOf, filterTag_append]
  rw [filterTag_nameGroup (nsOf std) t _ _ _ h1 h2 h3]
  have fip : filterTag (nsOf std ++ t)
      (if 2014 ≤ std.toNat && !d.ispresent then
        [add_value (nsOf std ++ "isPresent") "0"] else []) = [] := by
    split
    · exact filterTag_value_ne _ _ (ns_append_ne (nsOf std) (Ne.symm h8)) _
    · rfl
  rw [fip]
  have fdim : filterTag (nsOf std ++ t)
      (if d.is_array then
        d.array_dimensions.map (fun dim => add_value (nsOf std ++ "dim") (toString dim))
      else []) = [] := by
    split
    · apply filterTag_nil_of_forall
      intro y hy
      obtain ⟨n, -, rfl⟩ := List.mem_map.mp hy
      intro he
      exact ns_append_ne (nsOf std) (Ne.symm h4) (Option.some.inj he)
    · rfl
  rw [fdim,
    filterTag_value_ne _ _ (ns_append_ne (nsOf std) (Ne.symm h5)) _,
    filterTag_value_ne _ _ (ns_append_ne (nsOf std) (Ne.symm h6)) _]
  have frst : filterTag (nsOf std ++ t)
      (if std.toNat ≤ 2009 then
        if (reg_reset_fold d.fields).2 ≠ 0 then
          [XML.elem (nsOf std ++ "reset") []
            [add_value (nsOf std ++ "value") (hex_str std (reg_reset_fold d.fields).1),
             add_value (nsOf std ++ "mask") (hex_str std (reg_reset_fold d.fields).2)]]
        else []
      else [])
      = (if t = "reset" then
          (if std.toNat ≤ 2009 then
            (if (reg_reset_fold d.fields).2 ≠ 0 then
              [XML.elem (nsOf std ++ "reset") []
                [add_value (nsOf std ++ "value") (hex_str std (reg_reset_fold d.fields).1),
                 add_value (nsOf std ++ "mask") (hex_str std (reg_reset_fold d.fields).2)]]
            else []) else [])
        else []) := by
    by_cases ht : t = "reset"
    · subst ht
      rw [if_pos rfl]
      split
      · split
        · exact filterTag_single_eq _ _ _
        · rfl
      · rfl
    · rw [if_neg ht]
      split
      · split
        · exact filterTag_single_ne _ _ (ns_append_ne (nsOf std) (Ne.symm ht)) _ _
        · rfl
      · rfl
  rw [frst]
  have ffld : filterTag (nsOf std ++ t) (d.fields.map (add_field std)) = [] := by
    apply filterTag_nil_of_forall
    intro y hy
    obtain ⟨f, -, rfl⟩ := List.mem_map.mp hy
    intro he
    exact ns_append_ne (nsOf std) (Ne.symm h7) (Option.some.inj he)
  rw [ffld]
  simp

/-- C3: under the 2009 dialect a register carries a single register-level
reset element — value and mask OR-aggregated over all fields declaring a
reset, each field contributing its reset shifted to its lsb and masked to
its width — emitted only when the aggregated mask is non-zero; under the
2014 dialect the register carries no register-level reset, and each field
with a declared reset carries its own field-level resets element instead
(a field-level resets element never appears under 2009). -/
theorem C3_reset_representation (d : RegData) (mw : Option Nat) (f : FieldData) :
    (∀ x mw', add_register .IEEE_1685_2009 mw d = .ok (x, mw') →
      countTag (nsOf .IEEE_1685_2009 ++ "reset") x.childrenOf
        = (if (reg_reset_fold d.fields).2 ≠ 0 then 1 else 0) ∧
      filterTag (nsOf .IEEE_1685_2009 ++ "reset") x.childrenOf
        = (if (reg_reset_fold d.fields).2 ≠ 0 then
            [XML.elem (nsOf .IEEE_1685_2009 ++ "reset") []
              [add_value (nsOf .IEEE_1685_2009 ++ "value")
                (hex_str .IEEE_1685_2009 (reg_reset_fold d.fields).1),
               add_value (nsOf .IEEE_1685_2009 ++ "mask")
                (hex_str .IEEE_1685_2009 (reg_reset_fold d.fields).2)]]
          else []))
    ∧ (∀ x mw', add_register .IEEE_1685_2014 mw d = .ok (x, mw') →
      countTag (nsOf .IEEE_1685_2014 ++ "reset") x.childrenOf = 0)
    ∧ countTag (nsOf .IEEE_1685_2014 ++ "resets") (add_field .IEEE_1685_2014 f).childrenOf
        = (if f.reset.isSome then 1 else 0)
    ∧ filterTag (nsOf .IEEE_1685_2014 ++ "resets") (add_field .IEEE_1685_2014 f).childrenOf
        = (match f.reset with
           | some r =>
             [XML.elem (nsOf .IEEE_1685_2014 ++ "resets") []
               [XML.elem (nsOf .IEEE_1685_2014 ++ "reset") []
                 [add_value (nsOf .IEEE_1685_2014 ++ "value") (hex_str .IEEE_1685_2014 r)]]]
           | none => [])
    ∧ countTag (nsOf .IEEE_1685_2009 ++ "resets") (add_field .IEEE_1685_2009 f).childrenOf
        = 0 := by
  refine ⟨?_, ?_, ?_, ?_, ?_⟩
  · intro x mw' h
    constructor
    · rw [countTag_add_register _ mw d x mw' h "reset"
        (by decide) (by decide) (by decide) (by decide) (by decide) (by decide) (by decide)]
      norm_num [Standard.toNat]
    · rw [filterTag_add_register _ mw d x mw' h "reset"
        (by decide) (by decide) (by decide) (by decide) (by decide) (by decide) (by decide)
        (by decide)]
      norm_num [Standard.toNat]
  · intro x mw' h
    rw [countTag_add_register _ mw d x mw' h "reset"
      (by decide) (by decide) (by decide) (by decide) (by decide) (by decide) (by decide)]
    simp [Standard.toNat, show ("reset" : String) ≠ "isPresent" from by decide]
  · rw [countTag_add_field _ f "resets"
      (by decide) (by decide) (by decide) (by decide) (by decide) (by decide) (by decide)
      (by decide) (by decide) (by decide) (by decide)]
    simp [Standard.toNat, show ("resets" : String) ≠ "isPresent" from by decide]
  · rw [filterTag_add_field _ f "resets"
      (by decide) (by decide) (by decide) (by decide) (by decide) (by decide) (by decide)
      (by decide) (by decide) (by decide) (by decide)]
    simp [Standard.toNat, show ("resets" : String) ≠ "isPresent" from by decide]
  · rw [countTag_add_field _ f "resets"
      (by decide) (by decide) (by decide) (by decide) (by decide) (by decide) (by decide)
      (by decide) (by decide) (by decide) (by decide)]
    norm_num [Standard.toNat]

/-- The spec's example fields: F1 (reset=0x3, width=2, lsb=0) and
F2 (reset=0x1, width=1, lsb=2). -/
def wF1 : FieldData :=
  { inst_name := "F1", name_p := none, desc_p := none, ispresent := true,
    low := 0, lsb := 0, width := 2, reset := some 3, is_volatile := false,
    sw := .rw, encode := none, onwrite := none, onread := none, donttest := false }

def wF2 : FieldData :=
  { inst_name := "F2", name_p := none, desc_p := none, ispresent := true,
    low := 2, lsb := 2, width := 1, reset := some 1, is_volatile := false,
    sw := .rw, encode := none, onwrite := none, onread := none, donttest := false }

def wRex : RegData :=
  { inst_name := "rex", name_p := none, desc_p := none, ispresent := true,
    raw_address_offset := 0, is_array := false, array_dimensions := [],
    array_stride := 0, regwidth := 32, fields := [wF1, wF2] }

theorem C3_reset_representation_witness :
    reg_reset_fold [wF1, wF2] = (7, 7) ∧
    (∃ x mw', add_register .IEEE_1685_2009 none wRex = .ok (x, mw') ∧
      countTag (nsOf .IEEE_1685_2009 ++ "reset") x.childrenOf = 1 ∧
      filterTag (nsOf .IEEE_1685_2009 ++ "reset") x.childrenOf
        = [XML.elem (nsOf .IEEE_1685_2009 ++ "reset") []
            [add_value (nsOf .IEEE_1685_2009 ++ "value") (hex_str .IEEE_1685_2009 7),
             add_value (nsOf .IEEE_1685_2009 ++ "mask") (hex_str .IEEE_1685_2009 7)]]) ∧
    (∃ x mw', add_register .IEEE_1685_2014 none wRex = .ok (x, mw') ∧
      countTag (nsOf .IEEE_1685_2014 ++ "reset") x.childrenOf = 0) ∧
    countTag (nsOf .IEEE_1685_2014 ++ "resets") (add_field .IEEE_1685_2014 wF1).childrenOf = 1 ∧
    countTag (nsOf .IEEE_1685_2009 ++ "resets") (add_field .IEEE_1685_2009 wF1).childrenOf = 0 := by
  refine ⟨rfl, ?_, ?_, ?_, ?_⟩
  · obtain ⟨⟨x, mw'⟩, hr⟩ : ∃ r, add_register .IEEE_1685_2009 none wRex = .ok r := ⟨_, rfl⟩
    have hth := (C3_reset_representation wRex none wF1).1 x mw' hr
    refine ⟨x, mw', hr, ?_, ?_⟩
    · rw [hth.1]
      rfl
    · rw [hth.2]
      rfl
  · obtain ⟨⟨x, mw'⟩, hr⟩ : ∃ r, add_register .IEEE_1685_2014 none wRex = .ok r := ⟨_, rfl⟩
    have hth := (C3_reset_representation wRex none wF1).2.1 x mw' hr
    exact ⟨x, mw', hr, hth⟩
  · rw [(C3_reset_representation wRex none wF1).2.2.1]
    rfl
  · rw [(C3_reset_representation wRex none wF1).2.2.2.2]

/-- Tag census of a rendered registerFile's direct children. -/
theorem countTag_add_registerFile (std : Standard) (d : BlockData) (cs : List RNode)
    (mw : Option Nat) (x : XML) (mw' : Option Nat) (ws : List Message)
    (h : add_registerFile std d cs mw = .ok (x, mw', ws)) (t : String)
    (h1 : t ≠ "name") (h2 : t ≠ "displayName") (h3 : t ≠ "description")
    (h4 : t ≠ "dim") (h5 : t ≠ "addressOffset") (h6 : t ≠ "range")
    (h7 : t ≠ "register") (h8 : t ≠ "registerFile") :
    countTag (nsOf std ++ t) x.childrenOf
      = (if t = "isPresent" then
          (if 2014 ≤ std.toNat && !d.ispresent then 1 else 0) else 0) := by
  obtain ⟨inner, hin, hx⟩ := add_registerFile_ok_shape std d cs mw x mw' ws h
  subst hx
  simp only [XML.childrenOf, registerFileHead, countTag_append]
  rw [countTag_nameGroup (nsOf std) t _ _ _ h1 h2 h3]
  have cip : countTag (nsOf std ++ t)
      (if 2014 ≤ std.toNat && !d.ispresent then
        [add_value (nsOf std ++ "isPresent") "0"] else [])
      = (if t = "isPresent" then (if 2014 ≤ std.toNat && !d.ispresent then 1 else 0) else 0) := by
    by_cases ht : t = "isPresent"
    · subst ht
      rw [if_pos rfl]
      split
      · exact countTag_value_eq _ _
      · rfl
    · rw [if_neg ht]
      split
      · exact countTag_value_ne _ _ (ns_append_ne (nsOf std) (Ne.symm ht)) _
      · rfl
  rw [cip]
  have cdim : countTag (nsOf std ++ t)
      (if d.is_array then
        d.array_dimensions.map (fun dim => add_value (nsOf std ++ "dim") (toString dim))
      else []) = 0 := by
    split
    · apply countTag_zero_of_forall
      intro y hy
      obtain ⟨n, -, rfl⟩ := List.mem_map.mp hy
      intro he
      exact ns_append_ne (nsOf std) (Ne.symm h4) (Option.some.inj he)
    · rfl
  rw [cdim, countTag_value_ne _ _ (ns_append_ne (nsOf std) (Ne.symm h5)) _]
  have crng : countTag (nsOf std ++ t)
      (if d.is_array then [add_value (nsOf std ++ "range") (hex_str std d.array_stride)]
       else [add_value (nsOf std ++ "range") (hex_str std d.size)]) = 0 := by
    split
    · exact countTag_value_ne _ _ (ns_append_ne (nsOf std) (Ne.symm h6)) _
    · exact countTag_value_ne _ _ (ns_append_ne (nsOf std) (Ne.symm h6)) _
  rw [crng]
  have cin : countTag (nsOf std ++ t) inner = 0 := by
    apply countTag_zero_of_forall
    intro y hy
    rcases add_registerData_tags std cs mw inner mw' ws hin y hy with hh | hh <;>
      rw [hh] <;> intro he
    · exact ns_append_ne (nsOf std) (Ne.symm h7) (Option.some.inj he)
    · exact ns_append_ne (nsOf std) (Ne.symm h8) (Option.some.inj he)
  rw [cin]
  omega

/-- Tag census of a rendered addressBlock's direct children. -/
theorem countTag_add_addressBlock (std : Standard) (isMem : Bool) (d : BlockData)
    (cs : List RNode) (x : XML) (ws : List Message)
    (h : add_addressBlock std isMem d cs = .ok (x, ws)) (t : String)
    (h1 : t ≠ "name") (h2 : t ≠ "displayName") (h3 : t ≠ "description")
    (h4 : t ≠ "baseAddress") (h5 : t ≠ "range") (h6 : t ≠ "width")
    (h7 : t ≠ "usage") (h8 : t ≠ "access")
    (h9 : t ≠ "register") (h10 : t ≠ "registerFile") :
    countTag (nsOf std ++ t) x.childrenOf
      = (if t = "isPresent" then
          (if 2014 ≤ std.toNat && !d.ispresent then 1 else 0) else 0) := by
  obtain ⟨inner, mwF, hin, hx⟩ := add_addressBlock_ok_shape std isMem d cs x ws h
  subst hx
  simp only [XML.childrenOf, countTag_append]
  rw [countTag_nameGroup (nsOf std) t _ _ _ h1 h2 h3]
  have cip : countTag (nsOf std ++ t)
      (if 2014 ≤ std.toNat && !d.ispresent then
        [add_value (nsOf std ++ "isPresent") "0"] else [])
      = (if t = "isPresent" then (if 2014 ≤ std.toNat && !d.ispresent then 1 else 0) else 0) := by
    by_cases ht : t = "isPresent"
    · subst ht
      rw [if_pos rfl]
      split
      · exact countTag_value_eq _ _
      · rfl
    · rw [if_neg ht]
      split
      · exact countTag_value_ne _ _ (ns_append_ne (nsOf std) (Ne.symm ht)) _
      · rfl
  rw [cip,
    countTag_value_ne _ _ (ns_append_ne (nsOf std) (Ne.symm h4)) _,
    countTag_value_ne _ _ (ns_append_ne (nsOf std) (Ne.symm h5)) _,
    countTag_single_ne _ _ (ns_append_ne (nsOf std) (Ne.symm h6)) _ _]
  have cmem : countTag (nsOf std ++ t)
      (if isMem then
        [add_value (nsOf std ++ "usage") "memory",
         add_value (nsOf std ++ "access") (access_from_sw d.sw)] else []) = 0 := by
    split
    · simp [countTag, List.countP_cons, add_value, getTag,
        ns_append_ne (nsOf std) (Ne.symm h7), ns_append_ne (nsOf std) (Ne.symm h8)]
    · rfl
  rw [cmem]
  have cin : countTag (nsOf std ++ t) inner = 0 := by
    apply countTag_zero_of_forall
    intro y hy
    rcases add_registerData_tags std cs none inner mwF ws hin y hy with hh | hh <;>
      rw [hh] <;> intro he
    · exact ns_append_ne (nsOf std) (Ne.symm h9) (Option.some.inj he)
    · exact ns_append_ne (nsOf std) (Ne.symm h10) (Option.some.inj he)
  rw [cin]
  omega

/-- C7: for each of the four emitters — address block, register file,
register, field — an isPresent marker is emitted iff the dialect is 2014
or newer and the node's ispresent property is false; the marker carries
the value "0"; under 2009 no marker is ever emitted. -/
theorem C7_isPresent_marker (std : Standard) (f : FieldData) :
    countTag (nsOf std ++ "isPresent") (add_field std f).childrenOf
      = (if 2014 ≤ std.toNat && !f.ispresent then 1 else 0)
    ∧ filterTag (nsOf std ++ "isPresent") (add_field std f).childrenOf
      = (if 2014 ≤ std.toNat && !f.ispresent then
          [add_value (nsOf std ++ "isPresent") "0"] else [])
    ∧ (∀ mw d x mw', add_register std mw d = .ok (x, mw') →
        countTag (nsOf std ++ "isPresent") x.childrenOf
          = (if 2014 ≤ std.toNat && !d.ispresent then 1 else 0))
    ∧ (∀ d cs mw x mw' ws, add_registerFile std d cs mw = .ok (x, mw', ws) →
        countTag (nsOf std ++ "isPresent") x.childrenOf
          = (if 2014 ≤ std.toNat && !d.ispresent then 1 else 0))
    ∧ (∀ isMem d cs x ws, add_addressBlock std isMem d cs = .ok (x, ws) →
        countTag (nsOf std ++ "isPresent") x.childrenOf
          = (if 2014 ≤ std.toNat && !d.ispresent then 1 else 0)) := by
  refine ⟨?_, ?_, ?_, ?_, ?_⟩
  · rw [countTag_add_field std f "isPresent"
      (by decide) (by decide) (by decide) (by decide) (by decide) (by decide) (by decide)
      (by decide) (by decide) (by decide) (by decide)]
    simp [show ("isPresent" : String) ≠ "resets" from by decide]
  · rw [filterTag_add_field std f "isPresent"
      (by decide) (by decide) (by decide) (by decide) (by decide) (by decide) (by decide)
      (by decide) (by decide) (by decide) (by decide)]
    simp [show ("isPresent" : String) ≠ "resets" from by decide]
  · intro mw d x mw' h
    rw [countTag_add_register std mw d x mw' h "isPresent"
      (by decide) (by decide) (by decide) (by decide) (by decide) (by decide) (by decide)]
    simp [show ("isPresent" : String) ≠ "reset" from by decide]
  · intro d cs mw x mw' ws h
    rw [countTag_add_registerFile std d cs mw x mw' ws h "isPresent"
      (by decide) (by decide) (by decide) (by decide) (by decide) (by decide) (by decide)
      (by decide)]
    simp
  · intro isMem d cs x ws h
    rw [countTag_add_addressBlock std isMem d cs x ws h "isPresent"
      (by decide) (by decide) (by decide) (by decide) (by decide) (by decide) (by decide)
      (by decide) (by decide) (by decide)]
    simp

/-- A field marked not-present, for the marker example. -/
def wFabs : FieldData :=
  { inst_name := "Fa", name_p := none, desc_p := none, ispresent := false,
    low := 0, lsb := 0, width := 2, reset := none, is_volatile := false,
    sw := .rw, encode := none, onwrite := none, onread := none, donttest := false }

theorem C7_isPresent_marker_witness :
    countTag (nsOf .IEEE_1685_2014 ++ "isPresent")
      (add_field .IEEE_1685_2014 wFabs).childrenOf = 1 ∧
    filterTag (nsOf .IEEE_1685_2014 ++ "isPresent")
      (add_field .IEEE_1685_2014 wFabs).childrenOf
      = [add_value (nsOf .IEEE_1685_2014 ++ "isPresent") "0"] ∧
    countTag (nsOf .IEEE_1685_2009 ++ "isPresent")
      (add_field .IEEE_1685_2009 wFabs).childrenOf = 0 ∧
    (∃ x mw', add_register .IEEE_1685_2014 none wR32 = .ok (x, mw') ∧
      countTag (nsOf .IEEE_1685_2014 ++ "isPresent") x.childrenOf = 0) := by
  refine ⟨?_, ?_, ?_, ?_⟩
  · rw [(C7_isPresent_marker .IEEE_1685_2014 wFabs).1]
    rfl
  · rw [(C7_isPresent_marker .IEEE_1685_2014 wFabs).2.1]
    rfl
  · rw [(C7_isPresent_marker .IEEE_1685_2009 wFabs).1]
    rfl
  · obtain ⟨⟨x, mw'⟩, hr⟩ : ∃ r, add_register .IEEE_1685_2014 none wR32 = .ok r := ⟨_, rfl⟩
    refine ⟨x, mw', hr, ?_⟩
    rw [(C7_isPresent_marker .IEEE_1685_2014 wFabs).2.2.1 none wR32 x mw' hr]
    rfl

/-- C10: a registerFile's emitted range equals the node's array stride
when the node is arrayed (one dim element per array dimension, in order,
preceding the range element) and the node's byte size otherwise. -/
theorem C10_registerFile_range (std : Standard) (d : BlockData) (cs : List RNode)
    (mw : Option Nat) (x : XML) (mw' : Option Nat) (ws : List Message)
    (h : add_registerFile std d cs mw = .ok (x, mw', ws)) :
    (∃ pre inner,
      x = XML.elem (nsOf std ++ "registerFile") []
        (pre
          ++ (if d.is_array then
                d.array_dimensions.map (fun dim => add_value (nsOf std ++ "dim") (toString dim))
              else [])
          ++ [add_value (nsOf std ++ "addressOffset") (hex_str std d.raw_address_offset)]
          ++ [add_value (nsOf std ++ "range")
                (hex_str std (if d.is_array then d.array_stride else d.size))]
          ++ inner))
    ∧ filterTag (nsOf std ++ "dim") x.childrenOf
        = (if d.is_array then
            d.array_dimensions.map (fun dim => add_value (nsOf std ++ "dim") (toString dim))
          else [])
    ∧ filterTag (nsOf std ++ "range") x.childrenOf
        = [add_value (nsOf std ++ "range")
            (hex_str std (if d.is_array then d.array_stride else d.size))] := by
  obtain ⟨inner, hin, hx⟩ := add_registerFile_ok_shape std d cs mw x mw' ws h
  subst hx
  have htagsIn := add_registerData_tags std cs mw inner mw' ws hin
  refine ⟨?_, ?_, ?_⟩
  · refine ⟨add_nameGroup (nsOf std) d.inst_name d.name_p d.desc_p
      ++ (if 2014 ≤ std.toNat && !d.ispresent then
            [add_value (nsOf std ++ "isPresent") "0"] else []), inner, ?_⟩
    cases hd : d.is_array <;>
      simp [registerFileHead, hd, List.append_assoc]
  · simp only [XML.childrenOf, registerFileHead, filterTag_append]
    rw [filterTag_nameGroup (nsOf std) "dim" _ _ _ (by decide) (by decide) (by decide)]
    have fip : filterTag (nsOf std ++ "dim")
        (if 2014 ≤ std.toNat && !d.ispresent then
          [add_value (nsOf std ++ "isPresent") "0"] else []) = [] := by
      split
      · exact filterTag_value_ne _ _ (ns_append_ne (nsOf std) (by decide)) _
      · rfl
    rw [fip]
    have fdim : filterTag (nsOf std ++ "dim")
        (if d.is_array then
          d.array_dimensions.map (fun dim => add_value (nsOf std ++ "dim") (toString dim))
        else [])
        = (if d.is_array then
            d.array_dimensions.map (fun dim => add_value (nsOf std ++ "dim") (toString dim))
          else []) := by
      split
      · rw [filterTag, List.filter_eq_self]
        intro y hy
        obtain ⟨n, -, rfl⟩ := List.mem_map.mp hy
        simp [add_value, getTag]
      · rfl
    rw [fdim, filterTag_value_ne _ _ (ns_append_ne (nsOf std) (by decide)) _]
    have frng : filterTag (nsOf std ++ "dim")
        (if d.is_array then [add_value (nsOf std ++ "range") (hex_str std d.array_stride)]
         else [add_value (nsOf std ++ "range") (hex_str std d.size)]) = [] := by
      split
      · exact filterTag_value_ne _ _ (ns_append_ne (nsOf std) (by decide)) _
      · exact filterTag_value_ne _ _ (ns_append_ne (nsOf std) (by decide)) _
    rw [frng]
    have fin : filterTag (nsOf std ++ "dim") inner = [] := by
      apply filterTag_nil_of_forall
      intro y hy
      rcases htagsIn y hy with hh | hh <;> rw [hh] <;> intro he
      · exact ns_append_ne (nsOf std) (by decide) (Option.some.inj he)
      · exact ns_append_ne (nsOf std) (by decide) (Option.some.inj he)
    rw [fin]
    simp
  · simp only [XML.childrenOf, registerFileHead, filterTag_append]
    rw [filterTag_nameGroup (nsOf std) "range" _ _ _ (by decide) (by decide) (by decide)]
    have fip : filterTag (nsOf std ++ "range")
        (if 2014 ≤ std.toNat && !d.ispresent then
          [add_value (nsOf std ++ "isPresent") "0"] else []) = [] := by
      split
      · exact filterTag_value_ne _ _ (ns_append_ne (nsOf std) (by decide)) _
      · rfl
    rw [fip]
    have fdim : filterTag (nsOf std ++ "range")
        (if d.is_array then
          d.array_dimensions.map (fun dim => add_value (nsOf std ++ "dim") (toString dim))
        else []) = [] := by
      split
      · apply filterTag_nil_of_forall
        intro y hy
        obtain ⟨n, -, rfl⟩ := List.mem_map.mp hy
        intro he
        exact ns_append_ne (nsOf std) (by decide) (Option.some.inj he)
      · rfl
    rw [fdim, filterTag_value_ne _ _ (ns_append_ne (nsOf std) (by decide)) _]
    have frng : filterTag (nsOf std ++ "range")
        (if d.is_array then [add_value (nsOf std ++ "range") (hex_str std d.array_stride)]
         else [add_value (nsOf std ++ "range") (hex_str std d.size)])
        = [add_value (nsOf std ++ "range")
            (hex_str std (if d.is_array then d.array_stride else d.size))] := by
      split
      · exact filterTag_value_eq _ _
      · exact filterTag_value_eq _ _
    rw [frng]
    have fin : filterTag (nsOf std ++ "range") inner = [] := by
      apply filterTag_nil_of_forall
      intro y hy
      rcases htagsIn y hy with hh | hh <;> rw [hh] <;> intro he
      · exact ns_append_ne (nsOf std) (by decide) (Option.some.inj he)
      · exact ns_append_ne (nsOf std) (by decide) (Option.some.inj he)
    rw [fin]
    simp

/-- An arrayed register-group block: stride 16, byte size 32, dims [2]. -/
def wBarr : BlockData :=
  { inst_name := "garr", name_p := none, desc_p := none, ispresent := true,
    absolute_address := 0, raw_address_offset := 0, size := 32,
    is_array := true, array_dimensions := [2], array_stride := 16,
    memwidth := 32, sw := .rw, bridge := false }

theorem C10_registerFile_range_witness :
    ∃ x mw' ws, add_registerFile .IEEE_1685_2014 wBarr [] none = .ok (x, mw', ws) ∧
      filterTag (nsOf .IEEE_1685_2014 ++ "range") x.childrenOf
        = [add_value (nsOf .IEEE_1685_2014 ++ "range")
            (hex_str .IEEE_1685_2014
              (if wBarr.is_array then wBarr.array_stride else wBarr.size))] ∧
      filterTag (nsOf .IEEE_1685_2014 ++ "dim") x.childrenOf
        = (if wBarr.is_array then
            wBarr.array_dimensions.map
              (fun dim => add_value (nsOf .IEEE_1685_2014 ++ "dim") (toString dim))
          else []) := by
  obtain ⟨⟨x, mw', ws⟩, hr⟩ :
      ∃ r, add_registerFile .IEEE_1685_2014 wBarr [] none = .ok r := by
    simp [add_registerFile, add_registerData, rdGo, Bind.bind, Except.bind,
      pure, Except.pure]
  have hth := C10_registerFile_range .IEEE_1685_2014 wBarr [] none x mw' ws hr
  exact ⟨x, mw', ws, hr, hth.2.2, hth.2.1⟩

/-- Inserting a mem child into a loop's child list leaves the emitted
elements and the accumulator unchanged, adds exactly one nested-mem
warning (none in the register-only 2009 loop, which ignores mem
children), and introduces no fatality. -/
theorem rdGo_mem_insert (std : Standard) (pass : Pass) (memd : BlockData)
    (mcs : List RNode) (post : List RNode) :
    ∀ pre mw,
      (∀ xs mw' ws, rdGo std pass (pre ++ post) mw = .ok (xs, mw', ws) →
        ∃ ws₂, rdGo std pass (pre ++ .mem memd mcs :: post) mw = .ok (xs, mw', ws₂) ∧
          List.Perm ws₂
            (if pass = .regsOnly then ws else Message.memNested memd.inst_name :: ws))
      ∧ (∀ f, rdGo std pass (pre ++ post) mw = .error f →
          rdGo std pass (pre ++ .mem memd mcs :: post) mw = .error f) := by
  intro pre
  induction pre with
  | nil =>
    intro mw
    by_cases hp : pass = Pass.regsOnly
    · subst hp
      constructor
      · intro xs mw' ws h
        rw [List.nil_append] at h
        refine ⟨ws, ?_, ?_⟩
        · rw [List.nil_append, rdGo_cons_mem_regs]
          exact h
        · rw [if_pos rfl]
      · intro f h
        rw [List.nil_append] at h
        rw [List.nil_append, rdGo_cons_mem_regs]
        exact h
    · constructor
      · intro xs mw' ws h
        rw [List.nil_append] at h
        refine ⟨Message.memNested memd.inst_name :: ws, ?_, ?_⟩
        · rw [List.nil_append, rdGo_cons_mem _ _ _ _ _ _ hp, h]
          rfl
        · rw [if_neg hp]
      · intro f h
        rw [List.nil_append] at h
        rw [List.nil_append, rdGo_cons_mem _ _ _ _ _ _ hp, h]
        rfl
  | cons c pre ih =>
    intro mw
    cases c with
    | reg d =>
      by_cases hp : pass = Pass.filesOnly
      · subst hp
        constructor
        · intro xs mw' ws h
          rw [List.cons_append, rdGo_cons_reg_files] at h
          obtain ⟨ws₂, h2, hperm⟩ := (ih mw).1 xs mw' ws h
          refine ⟨ws₂, ?_, hperm⟩
          rw [List.cons_append, rdGo_cons_reg_files]
          exact h2
        · intro f h
          rw [List.cons_append, rdGo_cons_reg_files] at h
          rw [List.cons_append, rdGo_cons_reg_files]
          exact (ih mw).2 f h
      · constructor
        · intro xs mw' ws h
          rw [List.cons_append, rdGo_cons_reg _ _ _ _ _ hp] at h
          cases hreg : add_register std mw d with
          | error f => rw [hreg] at h; simp [Bind.bind, Except.bind] at h
          | ok p =>
            obtain ⟨x, mw1⟩ := p
            rw [hreg] at h
            simp only [Bind.bind, Except.bind] at h
            cases hrest : rdGo std pass (pre ++ post) mw1 with
            | error f => rw [hrest] at h; simp at h
            | ok q =>
              obtain ⟨xs2, mw2, ws2⟩ := q
              rw [hrest] at h
              simp only [pure, Except.pure, Except.ok.injEq, Prod.mk.injEq] at h
              obtain ⟨hxs, hmw, hws⟩ := h
              obtain ⟨ws₂, h2, hperm⟩ := (ih mw1).1 xs2 mw2 ws2 hrest
              refine ⟨ws₂, ?_, ?_⟩
              · rw [List.cons_append, rdGo_cons_reg _ _ _ _ _ hp, hreg]
                simp only [Bind.bind, Except.bind]
                rw [h2]
                simp only [pure, Except.pure]
                rw [hxs, hmw]
              · rw [← hws]
                exact hperm
        · intro f h
          rw [List.cons_append, rdGo_cons_reg _ _ _ _ _ hp] at h
          cases hreg : add_register std mw d with
          | error f2 =>
            rw [hreg] at h
            simp only [Bind.bind, Except.bind, Except.error.injEq] at h
            subst h
            rw [List.cons_append, rdGo_cons_reg _ _ _ _ _ hp, hreg]
            rfl
          | ok p =>
            obtain ⟨x, mw1⟩ := p
            rw [hreg] at h
            simp only [Bind.bind, Except.bind] at h
            cases hrest : rdGo std pass (pre ++ post) mw1 with
            | error f2 =>
              rw [hrest] at h
              simp only [Except.error.injEq] at h
              subst h
              rw [List.cons_append, rdGo_cons_reg _ _ _ _ _ hp, hreg]
              simp only [Bind.bind, Except.bind]
              rw [(ih mw1).2 f2 hrest]
            | ok q =>
              obtain ⟨xs2, mw2, ws2⟩ := q
              rw [hrest] at h
              simp [pure, Except.pure] at h
    | regfile d cs' =>
      by_cases hp : pass = Pass.regsOnly
      · subst hp
        constructor
        · intro xs mw' ws h
          rw [List.cons_append, rdGo_cons_regfile_regs] at h
          obtain ⟨ws₂, h2, hperm⟩ := (ih mw).1 xs mw' ws h
          refine ⟨ws₂, ?_, hperm⟩
          rw [List.cons_append, rdGo_cons_regfile_regs]
          exact h2
        · intro f h
          rw [List.cons_append, rdGo_cons_regfile_regs] at h
          rw [List.cons_append, rdGo_cons_regfile_regs]
          exact (ih mw).2 f h
      · constructor
        · intro xs mw' ws h
          rw [List.cons_append, rdGo_cons_regfile _ _ _ _ _ _ hp] at h
          cases hin : add_registerData std cs' mw with
          | error f => rw [hin] at h; simp [Bind.bind, Except.bind] at h
          | ok p =>
            obtain ⟨inner, mw1, ws1⟩ := p
            rw [hin] at h
            simp only [Bind.bind, Except.bind] at h
            cases hrest : rdGo std pass (pre ++ post) mw1 with
            | error f => rw [hrest] at h; simp at h
            | ok q =>
              obtain ⟨xs2, mw2, ws2⟩ := q
              rw [hrest] at h
              simp only [pure, Except.pure, Except.ok.injEq, Prod.mk.injEq] at h
              obtain ⟨hxs, hmw, hws⟩ := h
              obtain ⟨ws₂, h2, hperm⟩ := (ih mw1).1 xs2 mw2 ws2 hrest
              rw [if_neg hp] at hperm
              refine ⟨ws1 ++ ws₂, ?_, ?_⟩
              · rw [List.cons_append, rdGo_cons_regfile _ _ _ _ _ _ hp, hin]
                simp only [Bind.bind, Except.bind]
                rw [h2]
                simp only [pure, Except.pure]
                rw [hxs, hmw]
              · rw [← hws, if_neg hp]
                exact (List.Perm.append_left ws1 hperm).trans List.perm_middle
        · intro f h
          rw [List.cons_append, rdGo_cons_regfile _ _ _ _ _ _ hp] at h
          cases hin : add_registerData std cs' mw with
          | error f2 =>
            rw [hin] at h
            simp only [Bind.bind, Except.bind, Except.error.injEq] at h
            subst h
            rw [List.cons_append, rdGo_cons_regfile _ _ _ _ _ _ hp, hin]
            rfl
          | ok p =>
            obtain ⟨inner, mw1, ws1⟩ := p
            rw [hin] at h
            simp only [Bind.bind, Except.bind] at h
            cases hrest : rdGo std pass (pre ++ post) mw1 with
            | error f2 =>
              rw [hrest] at h
              simp only [Except.error.injEq] at h
              subst h
              rw [List.cons_append, rdGo_cons_regfile _ _ _ _ _ _ hp, hin]
              simp only [Bind.bind, Except.bind]
              rw [(ih mw1).2 f2 hrest]
            | ok q =>
              obtain ⟨xs2, mw2, ws2⟩ := q
              rw [hrest] at h
              simp [pure, Except.pure] at h
    | addrmap d cs' =>
      by_cases hp : pass = Pass.regsOnly
      · subst hp
        constructor
        · intro xs mw' ws h
          rw [List.cons_append, rdGo_cons_addrmap_regs] at h
          obtain ⟨ws₂, h2, hperm⟩ := (ih mw).1 xs mw' ws h
          refine ⟨ws₂, ?_, hperm⟩
          rw [List.cons_append, rdGo_cons_addrmap_regs]
          exact h2
        · intro f h
          rw [List.cons_append, rdGo_cons_addrmap_regs] at h
          rw [List.cons_append, rdGo_cons_addrmap_regs]
          exact (ih mw).2 f h
      · constructor
        · intro xs mw' ws h
          rw [List.cons_append, rdGo_cons_addrmap _ _ _ _ _ _ hp] at h
          cases hin : add_registerData std cs' mw with
          | error f => rw [hin] at h; simp [Bind.bind, Except.bind] at h
          | ok p =>
            obtain ⟨inner, mw1, ws1⟩ := p
            rw [hin] at h
            simp only [Bind.bind, Except.bind] at h
            cases hrest : rdGo std pass (pre ++ post) mw1 with
            | error f => rw [hrest] at h; simp at h
            | ok q =>
              obtain ⟨xs2, mw2, ws2⟩ := q
              rw [hrest] at h
              simp only [pure, Except.pure, Except.ok.injEq, Prod.mk.injEq] at h
              obtain ⟨hxs, hmw, hws⟩ := h
              obtain ⟨ws₂, h2, hperm⟩ := (ih mw1).1 xs2 mw2 ws2 hrest
              rw [if_neg hp] at hperm
              refine ⟨ws1 ++ ws₂, ?_, ?_⟩
              · rw [List.cons_append, rdGo_cons_addrmap _ _ _ _ _ _ hp, hin]
                simp only [Bind.bind, Except.bind]
                rw [h2]
                simp only [pure, Except.pure]
                rw [hxs, hmw]
              · rw [← hws, if_neg hp]
                exact (List.Perm.append_left ws1 hperm).trans List.perm_middle
        · intro f h
          rw [List.cons_append, rdGo_cons_addrmap _ _ _ _ _ _ hp] at h
          cases hin : add_registerData std cs' mw with
          | error f2 =>
            rw [hin] at h
            simp only [Bind.bind, Except.bind, Except.error.injEq] at h
            subst h
            rw [List.cons_append, rdGo_cons_addrmap _ _ _ _ _ _ hp, hin]
            rfl
          | ok p =>
            obtain ⟨inner, mw1, ws1⟩ := p
            rw [hin] at h
            simp only [Bind.bind, Except.bind] at h
            cases hrest : rdGo std pass (pre ++ post) mw1 with
            | error f2 =>
              rw [hrest] at h
              simp only [Except.error.injEq] at h
              subst h
              rw [List.cons_append, rdGo_cons_addrmap _ _ _ _ _ _ hp, hin]
              simp only [Bind.bind, Except.bind]
              rw [(ih mw1).2 f2 hrest]
            | ok q =>
              obtain ⟨xs2, mw2, ws2⟩ := q
              rw [hrest] at h
              simp [pure, Except.pure] at h
    | mem d' mcs' =>
      by_cases hp : pass = Pass.regsOnly
      · subst hp
        constructor
        · intro xs mw' ws h
          rw [List.cons_append, rdGo_cons_mem_regs] at h
          obtain ⟨ws₂, h2, hperm⟩ := (ih mw).1 xs mw' ws h
          refine ⟨ws₂, ?_, hperm⟩
          rw [List.cons_append, rdGo_cons_mem_regs]
          exact h2
        · intro f h
          rw [List.cons_append, rdGo_cons_mem_regs] at h
          rw [List.cons_append, rdGo_cons_mem_regs]
          exact (ih mw).2 f h
      · constructor
        · intro xs mw' ws h
          rw [List.cons_append, rdGo_cons_mem _ _ _ _ _ _ hp] at h
          cases hrest : rdGo std pass (pre ++ post) mw with
          | error f => rw [hrest] at h; simp [Bind.bind, Except.bind] at h
          | ok q =>
            obtain ⟨xs2, mw2, ws2⟩ := q
            rw [hrest] at h
            simp only [Bind.bind, Except.bind, pure, Except.pure, Except.ok.injEq,
              Prod.mk.injEq] at h
            obtain ⟨hxs, hmw, hws⟩ := h
            obtain ⟨ws₂, h2, hperm⟩ := (ih mw).1 xs2 mw2 ws2 hrest
            rw [if_neg hp] at hperm
            refine ⟨Message.memNested d'.inst_name :: ws₂, ?_, ?_⟩
            · rw [List.cons_append, rdGo_cons_mem _ _ _ _ _ _ hp, h2]
              simp only [Bind.bind, Except.bind, pure, Except.pure]
              rw [hxs, hmw]
            · rw [← hws, if_neg hp]
              exact (hperm.cons _).trans (List.Perm.swap _ _ _)
        · intro f h
          rw [List.cons_append, rdGo_cons_mem _ _ _ _ _ _ hp] at h
          cases hrest : rdGo std pass (pre ++ post) mw with
          | error f2 =>
            rw [hrest] at h
            simp only [Bind.bind, Except.bind, Except.error.injEq] at h
            subst h
            rw [List.cons_append, rdGo_cons_mem _ _ _ _ _ _ hp]
            simp only [Bind.bind, Except.bind]
            rw [(ih mw).2 f2 hrest]
          | ok q =>
            obtain ⟨xs2, mw2, ws2⟩ := q
            rw [hrest] at h
            simp [Bind.bind, Except.bind, pure, Except.pure] at h
    | other =>
      constructor
      · intro xs mw' ws h
        rw [List.cons_append, rdGo_cons_other] at h
        obtain ⟨ws₂, h2, hperm⟩ := (ih mw).1 xs mw' ws h
        refine ⟨ws₂, ?_, hperm⟩
        rw [List.cons_append, rdGo_cons_other]
        exact h2
      · intro f h
        rw [List.cons_append, rdGo_cons_other] at h
        rw [List.cons_append, rdGo_cons_other]
        exact (ih mw).2 f h

/-- C6: a mem node nested inside a register hierarchy is dropped with a
warning: the surrounding siblings render exactly as without it, exactly
one nested-mem warning for it is added to the message sink, and no fatal
error is introduced, in either dialect. -/
theorem C6_nested_mem_dropped (std : Standard) (pre post : List RNode)
    (memd : BlockData) (mcs : List RNode) (mw : Option Nat) :
    (∀ xs mw' ws, add_registerData std (pre ++ post) mw = .ok (xs, mw', ws) →
      ∃ ws₂, add_registerData std (pre ++ .mem memd mcs :: post) mw = .ok (xs, mw', ws₂) ∧
        List.Perm ws₂ (Message.memNested memd.inst_name :: ws))
    ∧ (∀ f, add_registerData std (pre ++ post) mw = .error f →
        add_registerData std (pre ++ .mem memd mcs :: post) mw = .error f) := by
  cases std with
  | IEEE_1685_2014 =>
    constructor
    · intro xs mw' ws h
      obtain ⟨ws₂, h2, hperm⟩ :=
        (rdGo_mem_insert .IEEE_1685_2014 .interleaved memd mcs post pre mw).1 xs mw' ws h
      rw [if_neg (by decide)] at hperm
      exact ⟨ws₂, h2, hperm⟩
    · intro f h
      exact (rdGo_mem_insert .IEEE_1685_2014 .interleaved memd mcs post pre mw).2 f h
  | IEEE_1685_2009 =>
    constructor
    · intro xs mw' ws h
      unfold add_registerData at h ⊢
      cases hr : rdGo .IEEE_1685_2009 .regsOnly (pre ++ post) mw with
      | error f => rw [hr] at h; simp [Bind.bind, Except.bind] at h
      | ok pr =>
        obtain ⟨xsr, mwr, wsr⟩ := pr
        rw [hr] at h
        simp only [Bind.bind, Except.bind] at h
        cases hf : rdGo .IEEE_1685_2009 .filesOnly (pre ++ post) mwr with
        | error f => rw [hf] at h; simp at h
        | ok pf =>
          obtain ⟨xsf, mwf, wsf⟩ := pf
          rw [hf] at h
          simp only [pure, Except.pure, Except.ok.injEq, Prod.mk.injEq] at h
          obtain ⟨hxs, hmw, hws⟩ := h
          obtain ⟨wsr₂, hr2, hpermr⟩ :=
            (rdGo_mem_insert .IEEE_1685_2009 .regsOnly memd mcs post pre mw).1
              xsr mwr wsr hr
          rw [if_pos rfl] at hpermr
          obtain ⟨wsf₂, hf2, hpermf⟩ :=
            (rdGo_mem_insert .IEEE_1685_2009 .filesOnly memd mcs post pre mwr).1
              xsf mwf wsf hf
          rw [if_neg (by decide)] at hpermf
          refine ⟨wsr₂ ++ wsf₂, ?_, ?_⟩
          · rw [hr2]
            simp only [Bind.bind, Except.bind]
            rw [hf2]
            simp only [pure, Except.pure]
            rw [hxs, hmw]
          · rw [← hws]
            exact (hpermr.append hpermf).trans List.perm_middle
    · intro f h
      unfold add_registerData at h ⊢
      cases hr : rdGo .IEEE_1685_2009 .regsOnly (pre ++ post) mw with
      | error f2 =>
        rw [hr] at h
        simp only [Bind.bind, Except.bind, Except.error.injEq] at h
        subst h
        rw [(rdGo_mem_insert .IEEE_1685_2009 .regsOnly memd mcs post pre mw).2 f2 hr]
        rfl
      | ok pr =>
        obtain ⟨xsr, mwr, wsr⟩ := pr
        rw [hr] at h
        simp only [Bind.bind, Except.bind] at h
        cases hf : rdGo .IEEE_1685_2009 .filesOnly (pre ++ post) mwr with
        | error f2 =>
          rw [hf] at h
          simp only [Except.error.injEq] at h
          subst h
          obtain ⟨wsr₂, hr2, -⟩ :=
            (rdGo_mem_insert .IEEE_1685_2009 .regsOnly memd mcs post pre mw).1
              xsr mwr wsr hr
          rw [hr2]
          simp only [Bind.bind, Except.bind]
          rw [(rdGo_mem_insert .IEEE_1685_2009 .filesOnly memd mcs post pre mwr).2 f2 hf]
        | ok pf =>
          obtain ⟨xsf, mwf, wsf⟩ := pf
          rw [hf] at h
          simp [pure, Except.pure] at h

theorem C6_nested_mem_dropped_witness :
    ∃ xs mw' ws ws₂,
      add_registerData .IEEE_1685_2014 [.reg wRa, .reg wRc] none = .ok (xs, mw', ws) ∧
      add_registerData .IEEE_1685_2014 [.reg wRa, .mem wB [], .reg wRc] none
        = .ok (xs, mw', ws₂) ∧
      List.Perm ws₂ (Message.memNested wB.inst_name :: ws) := by
  obtain ⟨⟨xs, mw', ws⟩, hr⟩ :
      ∃ r, add_registerData .IEEE_1685_2014 [.reg wRa, .reg wRc] none = .ok r := by
    simp [add_registerData, rdGo, add_register, wRa, wRc, Bind.bind, Except.bind,
      pure, Except.pure]
  obtain ⟨ws₂, h2, hperm⟩ :=
    (C6_nested_mem_dropped .IEEE_1685_2014 [.reg wRa] [.reg wRc] wB [] none).1 xs mw' ws hr
  exact ⟨xs, mw', ws, ws₂, hr, h2, hperm⟩

/-- A child counts as addressable (Python `isinstance(child, AddressableNode)`). -/
def RNode.is_addressable : RNode → Bool
  | .other => false
  | _ => true

/-- A child that can become its own addressBlock: a non-arrayed addrmap
or mem node (exporter.py:155). -/
def addrblockable : RNode → Bool
  | .addrmap d _ => !d.is_array
  | .mem d _ => !d.is_array
  | _ => false

theorem addrblockable_counts_aux (cs : List RNode) :
    ∀ acc : Nat × Nat,
      cs.foldl
        (fun acc c =>
          match c with
          | .other => acc
          | .addrmap d _ => if !d.is_array then (acc.1 + 1, acc.2) else (acc.1, acc.2 + 1)
          | .mem d _ => if !d.is_array then (acc.1 + 1, acc.2) else (acc.1, acc.2 + 1)
          | .reg _ => (acc.1, acc.2 + 1)
          | .regfile _ _ => (acc.1, acc.2 + 1))
        acc
      = (acc.1 + cs.countP addrblockable,
         acc.2 + cs.countP (fun c => c.is_addressable && !addrblockable c)) := by
  induction cs with
  | nil => intro acc; simp
  | cons c rest ih =>
    intro acc
    rw [List.foldl_cons, List.countP_cons, List.countP_cons, ih]
    cases c with
    | other =>
      simp [addrblockable, RNode.is_addressable]
    | reg d =>
      simp [addrblockable, RNode.is_addressable, Prod.ext_iff]
      omega
    | regfile d cs2 =>
      simp [addrblockable, RNode.is_addressable, Prod.ext_iff]
      omega
    | addrmap d cs2 =>
      by_cases hda : d.is_array
      · simp [addrblockable, RNode.is_addressable, hda, Prod.ext_iff]
        omega
      · simp [addrblockable, RNode.is_addressable, hda, Prod.ext_iff]
        omega
    | mem d cs2 =>
      by_cases hda : d.is_array
      · simp [addrblockable, RNode.is_addressable, hda, Prod.ext_iff]
        omega
      · simp [addrblockable, RNode.is_addressable, hda, Prod.ext_iff]
        omega

theorem addrblockable_counts_eq (cs : List RNode) :
    addrblockable_counts cs
      = (cs.countP addrblockable,
         cs.countP (fun c => c.is_addressable && !addrblockable c)) := by
  rw [addrblockable_counts, addrblockable_counts_aux cs (0, 0)]
  simp

/-- The counting decision (exporter.py:147-161) holds precisely when
every addressable child is a non-arrayed addrmap/mem and at least one
such child exists. -/
theorem explode_decision_iff (cs : List RNode) :
    explode_decision cs = true ↔
      ((∀ c ∈ cs, c.is_addressable = true → addrblockable c = true) ∧
        ∃ c ∈ cs, addrblockable c = true) := by
  rw [explode_decision, addrblockable_counts_eq]
  simp only [Bool.and_eq_true, beq_iff_eq, decide_eq_true_eq]
  constructor
  · rintro ⟨h0, h1⟩
    constructor
    · intro c hc hadd
      by_contra hnot
      have : 0 < cs.countP (fun c => c.is_addressable && !addrblockable c) := by
        rw [List.countP_pos_iff]
        exact ⟨c, hc, by simp [hadd, hnot]⟩
      omega
    · rw [← List.countP_pos_iff]
      omega
  · rintro ⟨hall, hex⟩
    constructor
    · rw [List.countP_eq_zero]
      intro c hc
      simp only [Bool.and_eq_true, Bool.not_eq_true', not_and]
      intro ha
      rw [Bool.not_eq_false]
      exact hall c hc ha
    · rw [← List.countP_pos_iff] at hex
      omega

/-- When every addressable child is addrblockable, the explode loop emits
exactly one addressBlock per addressable child. -/
theorem explode_children_length (std : Standard) :
    ∀ cs : List RNode, (∀ c ∈ cs, c.is_addressable = true → addrblockable c = true) →
      ∀ blocks ws, explode_children std cs = .ok (blocks, ws) →
        blocks.length = cs.countP (fun c => c.is_addressable) := by
  intro cs
  induction cs with
  | nil =>
    intro _ blocks ws h
    simp only [explode_children, Except.ok.injEq, Prod.mk.injEq] at h
    rw [← h.1]
    rfl
  | cons c rest ih =>
    intro hall blocks ws h
    cases c with
    | reg d =>
      have := hall (.reg d) (List.mem_cons_self _ _) rfl
      simp [addrblockable] at this
    | regfile d cs' =>
      have := hall (.regfile d cs') (List.mem_cons_self _ _) rfl
      simp [addrblockable] at this
    | other =>
      rw [show explode_children std (.other :: rest) = explode_children std rest from rfl] at h
      rw [List.countP_cons]
      have := ih (fun c hc => hall c (List.mem_cons_of_mem _ hc)) blocks ws h
      simp [RNode.is_addressable, this]
    | addrmap d cs' =>
      rw [show explode_children std (.addrmap d cs' :: rest)
          = (do
            let (x, ws1) ← add_addressBlock std false d cs'
            let (xs, ws2) ← explode_children std rest
            pure (x :: xs, ws1 ++ ws2) : Except Fatal _) from rfl] at h
      cases hab : add_addressBlock std false d cs' with
      | error f => rw [hab] at h; simp [Bind.bind, Except.bind] at h
      | ok p =>
        obtain ⟨x, ws1⟩ := p
        rw [hab] at h
        simp only [Bind.bind, Except.bind] at h
        cases hrest : explode_children std rest with
        | error f => rw [hrest] at h; simp at h
        | ok q =>
          obtain ⟨xs, ws2⟩ := q
          rw [hrest] at h
          simp only [pure, Except.pure, Except.ok.injEq, Prod.mk.injEq] at h
          obtain ⟨hxs, -⟩ := h
          rw [← hxs, List.countP_cons]
          have := ih (fun c hc => hall c (List.mem_cons_of_mem _ hc)) xs ws2 hrest
          simp [RNode.is_addressable, this]
    | mem d cs' =>
      rw [show explode_children std (.mem d cs' :: rest)
          = (do
            let (x, ws1) ← add_addressBlock std true d cs'
            let (xs, ws2) ← explode_children std rest
            pure (x :: xs, ws1 ++ ws2) : Except Fatal _) from rfl] at h
      cases hab : add_addressBlock std true d cs' with
      | error f => rw [hab] at h; simp [Bind.bind, Except.bind] at h
      | ok p =>
        obtain ⟨x, ws1⟩ := p
        rw [hab] at h
        simp only [Bind.bind, Except.bind] at h
        cases hrest : explode_children std rest with
        | error f => rw [hrest] at h; simp at h
        | ok q =>
          obtain ⟨xs, ws2⟩ := q
          rw [hrest] at h
          simp only [pure, Except.pure, Except.ok.injEq, Prod.mk.injEq] at h
          obtain ⟨hxs, -⟩ := h
          rw [← hxs, List.countP_cons]
          have := ih (fun c hc => hall c (List.mem_cons_of_mem _ hc)) xs ws2 hrest
          simp [RNode.is_addressable, this]

/-- The fixed document envelope: generator comment, component element
with versionedIdentifier block and a memoryMaps collection holding one
memoryMap (exporter.py:106-131). -/
def componentDoc (cfg : ExporterCfg) (name : String) (mmapChildren : List XML) : List XML :=
  [XML.comment generatorComment,
   XML.elem (nsOf cfg.standard ++ "component") (componentAttrs cfg.standard)
     ([add_value (nsOf cfg.standard ++ "vendor") cfg.vendor,
       add_value (nsOf cfg.standard ++ "library") cfg.library,
       add_value (nsOf cfg.standard ++ "name") name,
       add_value (nsOf cfg.standard ++ "version") cfg.version]
       ++ [XML.elem (nsOf cfg.standard ++ "memoryMaps") []
            [XML.elem (nsOf cfg.standard ++ "memoryMap") [] mmapChildren]])]

theorem buildDoc_addrmap_explode (cfg : ExporterCfg) (cn : Option String)
    (d : BlockData) (cs : List RNode) (hexp : explode_decision cs = true)
    (blocks : List XML) (ws : List Message)
    (hok : explode_children cfg.standard cs = .ok (blocks, ws)) :
    buildDoc cfg cn false d cs
      = .ok (componentDoc cfg (py_or cn d.inst_name)
          (add_nameGroup (nsOf cfg.standard) d.inst_name d.name_p d.desc_p ++ blocks),
        (if d.bridge then [Message.bridgeIgnored d.inst_name] else []) ++ ws) := by
  unfold buildDoc
  simp only [Bool.not_false, Bool.true_and, hexp, if_true, hok, Bind.bind, Except.bind,
    pure, Except.pure]
  rfl

theorem buildDoc_addrmap_wrap (cfg : ExporterCfg) (cn : Option String)
    (d : BlockData) (cs : List RNode) (hexp : explode_decision cs = false)
    (block : XML) (ws : List Message)
    (hok : add_addressBlock cfg.standard false d cs = .ok (block, ws)) :
    buildDoc cfg cn false d cs
      = .ok (componentDoc cfg (py_or cn d.inst_name)
          (add_nameGroup (nsOf cfg.standard) d.inst_name none none ++ [block]),
        (if d.bridge then [Message.bridgeIgnored d.inst_name] else []) ++ ws) := by
  unfold buildDoc
  simp only [Bool.not_false, Bool.true_and, hexp, Bool.false_eq_true, if_false, hok,
    Bind.bind, Except.bind, pure, Except.pure]
  rfl

theorem buildDoc_mem_wrap (cfg : ExporterCfg) (cn : Option String)
    (d : BlockData) (cs : List RNode) (block : XML) (ws : List Message)
    (hok : add_addressBlock cfg.standard true d cs = .ok (block, ws)) :
    buildDoc cfg cn true d cs
      = .ok (componentDoc cfg (py_or cn d.inst_name)
          (add_nameGroup (nsOf cfg.standard) d.inst_name none none ++ [block]), ws) := by
  unfold buildDoc
  simp only [Bool.not_true, Bool.false_and, Bool.false_eq_true, if_false, hok,
    Bind.bind, Except.bind, pure, Except.pure]
  simp [componentDoc]

/-- `export_` with no stray keywords forwards `buildDoc`'s result,
wrapping fatality. -/
theorem export_node_eq (cfg : ExporterCfg) (cn : Option String)
    (d : BlockData) (cs : List RNode) :
    (export_ cfg (.node (.addrmap d cs)) cn []
      = match buildDoc cfg cn false d cs with
        | .ok r => .ok r
        | .error f => .error (.fatal f))
    ∧ (export_ cfg (.node (.mem d cs)) cn []
      = match buildDoc cfg cn true d cs with
        | .ok r => .ok r
        | .error f => .error (.fatal f)) := by
  constructor <;> rfl

/-- C2: an addrmap top node whose addressable children are all
non-arrayed addrmap/mem nodes, with at least one such child, is exploded:
the memoryMap carries the top node's name, display-name and description
and one sibling addressBlock per addressable child; otherwise (and for a
mem top node) the output is one memoryMap carrying only the instance
name, with the top node rendered as the sole addressBlock. -/
theorem C2_explode_or_wrap (cfg : ExporterCfg) (d : BlockData) (cs : List RNode)
    (cn : Option String) :
    (explode_decision cs = true ↔
      ((∀ c ∈ cs, c.is_addressable = true → addrblockable c = true) ∧
        ∃ c ∈ cs, addrblockable c = true))
    ∧ (explode_decision cs = true →
        ∀ blocks ws, explode_children cfg.standard cs = .ok (blocks, ws) →
          export_ cfg (.node (.addrmap d cs)) cn []
            = .ok (componentDoc cfg (py_or cn d.inst_name)
                (add_nameGroup (nsOf cfg.standard) d.inst_name d.name_p d.desc_p ++ blocks),
              (if d.bridge then [Message.bridgeIgnored d.inst_name] else []) ++ ws)
          ∧ blocks.length = cs.countP (fun c => c.is_addressable))
    ∧ (explode_decision cs = false →
        ∀ block ws, add_addressBlock cfg.standard false d cs = .ok (block, ws) →
          export_ cfg (.node (.addrmap d cs)) cn []
            = .ok (componentDoc cfg (py_or cn d.inst_name)
                (add_nameGroup (nsOf cfg.standard) d.inst_name none none ++ [block]),
              (if d.bridge then [Message.bridgeIgnored d.inst_name] else []) ++ ws))
    ∧ (∀ block ws, add_addressBlock cfg.standard true d cs = .ok (block, ws) →
        export_ cfg (.node (.mem d cs)) cn []
          = .ok (componentDoc cfg (py_or cn d.inst_name)
              (add_nameGroup (nsOf cfg.standard) d.inst_name none none ++ [block]), ws)) := by
  refine ⟨explode_decision_iff cs, ?_, ?_, ?_⟩
  · intro hexp blocks ws hok
    constructor
    · rw [(export_node_eq cfg cn d cs).1,
        buildDoc_addrmap_explode cfg cn d cs hexp blocks ws hok]
    · exact explode_children_length cfg.standard cs
        ((explode_decision_iff cs).mp hexp).1 blocks ws hok
  · intro hexp block ws hok
    rw [(export_node_eq cfg cn d cs).1,
      buildDoc_addrmap_wrap cfg cn d cs hexp block ws hok]
  · intro block ws hok
    rw [(export_node_eq cfg cn d cs).2,
      buildDoc_mem_wrap cfg cn d cs block ws hok]

theorem C2_explode_or_wrap_witness :
    explode_decision [RNode.addrmap wB [], RNode.mem wB []] = true ∧
    (∃ blocks ws,
      explode_children defaultCfg.standard [RNode.addrmap wB [], RNode.mem wB []]
        = .ok (blocks, ws) ∧
      export_ defaultCfg
          (.node (.addrmap wB [RNode.addrmap wB [], RNode.mem wB []])) none []
        = .ok (componentDoc defaultCfg (py_or none wB.inst_name)
            (add_nameGroup (nsOf defaultCfg.standard) wB.inst_name wB.name_p wB.desc_p
              ++ blocks),
          (if wB.bridge then [Message.bridgeIgnored wB.inst_name] else []) ++ ws) ∧
      blocks.length = 2) ∧
    explode_decision [RNode.reg wR32] = false ∧
    (∃ block ws,
      add_addressBlock defaultCfg.standard false wB [.reg wR32] = .ok (block, ws) ∧
      export_ defaultCfg (.node (.addrmap wB [.reg wR32])) none []
        = .ok (componentDoc defaultCfg (py_or none wB.inst_name)
            (add_nameGroup (nsOf defaultCfg.standard) wB.inst_name none none ++ [block]),
          (if wB.bridge then [Message.bridgeIgnored wB.inst_name] else []) ++ ws)) := by
  have hexp : explode_decision [RNode.addrmap wB [], RNode.mem wB []] = true := rfl
  refine ⟨hexp, ?_, rfl, ?_⟩
  · obtain ⟨⟨blocks, ws⟩, hok⟩ :
        ∃ r, explode_children defaultCfg.standard [RNode.addrmap wB [], RNode.mem wB []]
          = .ok r := by
      simp [explode_children, add_addressBlock, add_registerData, rdGo, Bind.bind,
        Except.bind, pure, Except.pure, defaultCfg]
    have hth := (C2_explode_or_wrap defaultCfg wB _ none).2.1 hexp blocks ws hok
    refine ⟨blocks, ws, hok, hth.1, ?_⟩
    rw [hth.2]
    rfl
  · obtain ⟨⟨block, ws⟩, hok⟩ :
        ∃ r, add_addressBlock defaultCfg.standard false wB [.reg wR32] = .ok r := by
      simp [add_addressBlock, add_registerData, rdGo, add_register, wR32, Bind.bind,
        Except.bind, pure, Except.pure, defaultCfg]
    exact ⟨block, ws, hok,
      (C2_explode_or_wrap defaultCfg wB [RNode.reg wR32] none).2.2.1 rfl block ws hok⟩

/-- The node kinds `export` accepts after root unwrapping
(exporter.py:94). -/
def node_kind_ok : RNode → Bool
  | .addrmap _ _ => true
  | .mem _ _ => true
  | _ => false

/-- C8: a constructor keyword outside the known six raises a `TypeError`
at construction time; `export` raises a `TypeError` for any keyword other
than component_name, and for a resolved node that is not an addrmap or
mem node, before any traversal; these are raised directly and are
distinct from the message-sink fatality channel. -/
theorem C8_argument_validation (kwargs : List String) (cfg : ExporterCfg)
    (arg : ExportArg) (cn : Option String) (stray : List String) :
    (init_raises kwargs = true ↔ ∃ k ∈ kwargs, k ∉ init_known_kwargs)
    ∧ ((∃ k ∈ stray, k ≠ "component_name") →
        export_ cfg arg cn stray
          = .error (.typeError "got an unexpected keyword argument"))
    ∧ (node_kind_ok arg.resolve = false →
        export_ cfg arg cn []
          = .error (.typeError "node argument expects type AddrmapNode or MemNode"))
    ∧ (∀ msg f, ExportError.typeError msg ≠ ExportError.fatal f) := by
  refine ⟨?_, ?_, ?_, ?_⟩
  · rw [init_raises, init_stray_kwargs]
    simp [List.isEmpty_iff, List.filter_eq_nil_iff]
  · rintro ⟨k, hk, hkne⟩
    have hmem : k ∈ stray.filter (fun k => k != "component_name") :=
      List.mem_filter.mpr ⟨hk, by simp [hkne]⟩
    have hne : stray.filter (fun k => k != "component_name") ≠ [] :=
      List.ne_nil_of_mem hmem
    unfold export_
    rw [if_pos (by simp [List.isEmpty_iff, hne])]
  · intro hk
    unfold export_
    rw [if_neg (by simp)]
    cases harg : arg.resolve with
    | addrmap d cs => rw [harg, node_kind_ok] at hk; exact absurd hk (by simp)
    | mem d cs => rw [harg, node_kind_ok] at hk; exact absurd hk (by simp)
    | reg d => rfl
    | regfile d cs => rfl
    | other => rfl
  · intro msg f h
    exact ExportError.noConfusion h

theorem C8_argument_validation_witness :
    init_raises ["vendor", "oops"] = true ∧
    export_ defaultCfg (.node (.mem wB [])) none ["component_name", "oops"]
      = .error (.typeError "got an unexpected keyword argument") ∧
    export_ defaultCfg (.node (.reg wR32)) none []
      = .error (.typeError "node argument expects type AddrmapNode or MemNode") := by
  refine ⟨?_, ?_, ?_⟩
  · exact (C8_argument_validation ["vendor", "oops"] defaultCfg
      (.node (.mem wB [])) none []).1.mpr ⟨"oops", by simp, by decide⟩
  · exact (C8_argument_validation [] defaultCfg (.node (.mem wB [])) none
      ["component_name", "oops"]).2.1 ⟨"oops", by simp, by decide⟩
  · exact (C8_argument_validation [] defaultCfg (.node (.reg wR32)) none []).2.2.1 rfl

/-- Every successful `buildDoc` yields the fixed generator comment as the
document's first node. -/
theorem buildDoc_ok_head (cfg : ExporterCfg) (cn : Option String) (isMem : Bool)
    (d : BlockData) (cs : List RNode) (r : List XML × List Message)
    (h : buildDoc cfg cn isMem d cs = .ok r) :
    r.1.head? = some (XML.comment generatorComment) := by
  unfold buildDoc at h
  dsimp only at h
  split at h <;> split at h <;>
    first
      | (cases hec : explode_children cfg.standard cs with
         | error f => rw [hec] at h; simp [Bind.bind, Except.bind] at h
         | ok p =>
           obtain ⟨blocks, ws1⟩ := p
           rw [hec] at h
           simp only [Bind.bind, Except.bind, pure, Except.pure, Except.ok.injEq] at h
           subst h
           rfl)
      | (cases hab : add_addressBlock cfg.standard isMem d cs with
         | error f => rw [hab] at h; simp [Bind.bind, Except.bind] at h
         | ok p =>
           obtain ⟨block, ws1⟩ := p
           rw [hab] at h
           simp only [Bind.bind, Except.bind, pure, Except.pure, Except.ok.injEq] at h
           subst h
           rfl)

/-- C9: export is deterministic — the returned document and warnings are
a function of the configuration, node tree, component name and keywords
alone (the embedding is pure, mirroring the source's freedom from clocks
and randomness), and every successful export starts with the fixed
generator comment, its only fixed banner. -/
theorem C9_deterministic (cfg₁ cfg₂ : ExporterCfg) (arg₁ arg₂ : ExportArg)
    (cn₁ cn₂ : Option String) (kw₁ kw₂ : List String) :
    (cfg₁ = cfg₂ → arg₁ = arg₂ → cn₁ = cn₂ → kw₁ = kw₂ →
      export_ cfg₁ arg₁ cn₁ kw₁ = export_ cfg₂ arg₂ cn₂ kw₂)
    ∧ (∀ doc ws, export_ cfg₁ arg₁ cn₁ kw₁ = .ok (doc, ws) →
        doc.head? = some (XML.comment generatorComment)) := by
  constructor
  · rintro rfl rfl rfl rfl
    rfl
  · intro doc ws h
    unfold export_ at h
    split at h
    · exact absurd h (by simp)
    · split at h
      · rename_i d cs heq
        cases hb : buildDoc cfg₁ cn₁ false d cs with
        | error f => rw [hb] at h; simp at h
        | ok r =>
          rw [hb] at h
          simp only [Except.ok.injEq] at h
          have := buildDoc_ok_head cfg₁ cn₁ false d cs r hb
          rw [h] at this
          exact this
      · rename_i d cs heq
        cases hb : buildDoc cfg₁ cn₁ true d cs with
        | error f => rw [hb] at h; simp at h
        | ok r =>
          rw [hb] at h
          simp only [Except.ok.injEq] at h
          have := buildDoc_ok_head cfg₁ cn₁ true d cs r hb
          rw [h] at this
          exact this
      · exact absurd h (by simp)

theorem C9_deterministic_witness :
    export_ defaultCfg (.node (.mem wB [])) none []
      = export_ defaultCfg (.node (.mem wB [])) none [] ∧
    (∃ doc ws, export_ defaultCfg (.node (.mem wB [])) none [] = .ok (doc, ws) ∧
      doc.head? = some (XML.comment generatorComment)) := by
  constructor
  · exact (C9_deterministic defaultCfg defaultCfg (.node (.mem wB [])) (.node (.mem wB []))
      none none [] []).1 rfl rfl rfl rfl
  · obtain ⟨⟨doc, ws⟩, h⟩ :
        ∃ r, export_ defaultCfg (.node (.mem wB [])) none [] = .ok r := by
      simp [export_, ExportArg.resolve, buildDoc, add_addressBlock, add_registerData,
        rdGo, Bind.bind, Except.bind, pure, Except.pure, defaultCfg]
    exact ⟨doc, ws, h,
      (C9_deterministic defaultCfg defaultCfg (.node (.mem wB [])) (.node (.mem wB []))
        none none [] []).2 doc ws h⟩

end PeakRDLIpxact
